import Mathlib

/-!
Verification of the response-normalization and fallback pipeline of the
StudentAnalysisBackend server (`server.js`).

The JavaScript code is shallowly embedded: JSON values are modelled by an
inductive type (numbers as integers, strings restricted to escape-free
text), `JSON.parse` by a fueled recursive-descent parser, `JSON.stringify`
by a compact serializer, the code-fence regular expression
by an explicit backtracking matcher, and each HTTP handler by a pure
function over an oracle describing the outcomes of its external calls
(the Groq LLM completion call, the app.py extraction service, Cloudinary,
and the multer file staging).
-/

namespace StudentAnalysis

/-- Model of a JavaScript JSON value.  Numbers are modelled as integers,
which covers every numeric literal the server's schemas and defaults use. -/
inductive Json where
  | null : Json
  | bool (b : Bool) : Json
  | num (n : Int) : Json
  | str (s : String) : Json
  | arr (elems : List Json) : Json
  | obj (fields : List (String × Json)) : Json
deriving Repr

/-- Left brace character, written via its code point. -/
def lb : Char := Char.ofNat 123

/-- Right brace character, written via its code point. -/
def rb : Char := Char.ofNat 125

/-- Backtick character, written via its code point. -/
def bt : Char := Char.ofNat 96

/-- Three backticks: the fence delimiter of the extraction regular expression. -/
def ticks : List Char := [bt, bt, bt]

/-- Field lookup on a JSON object; models JavaScript property access on a
receiver where such access does not throw: the undefined result of a
missing property or of access on an autoboxed primitive is none.  Access
on a null receiver throws a TypeError in JavaScript; that path is not a
lookup result and the handlers below model it as an explicit branch on the
null value where the server can reach it. -/
def getField (j : Json) (k : String) : Option Json :=
  match j with
  | .obj fs => (fs.find? (fun p => p.1 == k)).map (fun p => p.2)
  | _ => none

/-- The receivers on which JavaScript property access is defined without
throwing: everything except null (access on a primitive autoboxes and
yields undefined; access on null throws a TypeError, a path each handler
below models explicitly where it can occur). -/
def accessOk (j : Json) : Prop :=
  j ≠ Json.null

/-- JavaScript truthiness of a JSON value. -/
def truthy : Json → Bool
  | .null => false
  | .bool b => b
  | .num n => n != 0
  | .str s => s != ""
  | .arr _ => true
  | .obj _ => true

/-- Model of the JavaScript idiom `x.f || d` on an optionally present field. -/
def jsOr (x : Option Json) (d : Json) : Json :=
  match x with
  | some v => if truthy v then v else d
  | none => d

/-- Decimal digit character for a digit value below ten. -/
def digitChar : Nat → Char
  | 0 => '0'
  | 1 => '1'
  | 2 => '2'
  | 3 => '3'
  | 4 => '4'
  | 5 => '5'
  | 6 => '6'
  | 7 => '7'
  | 8 => '8'
  | _ => '9'

/-- Decimal digit characters of a natural number, most significant first. -/
def natChars (m : Nat) : List Char :=
  if m = 0 then ['0'] else ((Nat.digits 10 m).reverse).map digitChar

/-- Decimal representation of an integer, as JSON.stringify prints it. -/
def intChars (n : Int) : List Char :=
  if n < 0 then '-' :: natChars n.natAbs else natChars n.toNat

mutual

/-- Model of compact JSON.stringify on the Json model. -/
def stringifyVal : Json → List Char
  | .null => 'n' :: ['u', 'l', 'l']
  | .bool true => 't' :: ['r', 'u', 'e']
  | .bool false => 'f' :: ['a', 'l', 's', 'e']
  | .num n => intChars n
  | .str s => '\"' :: s.data ++ ['\"']
  | .arr l => '[' :: stringifyItems l
  | .obj l => lb :: stringifyFields l

/-- Serialized array elements including the closing bracket. -/
def stringifyItems : List Json → List Char
  | [] => [']']
  | [x] => stringifyVal x ++ [']']
  | x :: y :: rest => stringifyVal x ++ ',' :: stringifyItems (y :: rest)

/-- Serialized object fields including the closing brace. -/
def stringifyFields : List (String × Json) → List Char
  | [] => [rb]
  | [(k, v)] => '\"' :: k.data ++ '\"' :: ':' :: stringifyVal v ++ [rb]
  | (k, v) :: p :: rest =>
      '\"' :: k.data ++ '\"' :: ':' :: stringifyVal v ++ ',' :: stringifyFields (p :: rest)

end

/-- Whitespace characters recognised by the parser and by the model of the
regular expression character class of spaces. -/
def isWsChar (c : Char) : Bool :=
  c == ' ' || c == '\t' || c == '\n' || c == '\r'

/-- Drop leading whitespace characters. -/
def skipWs : List Char → List Char
  | [] => []
  | c :: cs => if isWsChar c then skipWs cs else c :: cs

/-- Reads a run of decimal digits, accumulating their value. -/
def readDigits : List Char → Nat → Nat × List Char
  | [], acc => (acc, [])
  | c :: cs, acc =>
    if c.isDigit then readDigits cs (acc * 10 + (c.toNat - 48)) else (acc, c :: cs)

/-- A digit run starting with a redundant zero, which the JSON number
grammar rejects: a zero digit directly followed by another digit. -/
def leadingZero (c : Char) (cs : List Char) : Bool :=
  c == '0' && (match cs with | e :: _ => e.isDigit | [] => false)

/-- Parses an optionally signed run of decimal digits (JSON numbers are
restricted to integers in this model).  As in the JSON grammar, the
integer part is a single zero or starts with a nonzero digit. -/
def parseNum : List Char → Option (Int × List Char)
  | [] => none
  | c :: cs =>
    if c == '-' then
      match cs with
      | [] => none
      | d :: ds =>
        if d.isDigit then
          if leadingZero d ds then none
          else
            match readDigits cs 0 with
            | (n, rest) => some (-(n : Int), rest)
        else none
    else if c.isDigit then
      if leadingZero c cs then none
      else
        match readDigits (c :: cs) 0 with
        | (n, rest) => some ((n : Int), rest)
    else none

/-- Parses the remainder of a string literal after the opening quote.
Escape sequences and raw control characters are rejected: the model covers
the escape-free strings the server's payloads consist of. -/
def parseStrAux : List Char → List Char → Option (String × List Char)
  | _, [] => none
  | acc, c :: cs =>
    if c == '\"' then some (String.mk acc.reverse, cs)
    else if c == '\\' then none
    else if c.toNat < 32 then none
    else parseStrAux (c :: acc) cs

mutual

/-- Fueled recursive-descent parser modelling JSON.parse. -/
def parseVal : Nat → List Char → Option (Json × List Char)
  | 0, _ => none
  | f + 1, cs =>
    match skipWs cs with
    | [] => none
    | c :: rest =>
      if c == 'n' then
        if rest.take 3 == ['u', 'l', 'l'] then some (.null, rest.drop 3) else none
      else if c == 't' then
        if rest.take 3 == ['r', 'u', 'e'] then some (.bool true, rest.drop 3) else none
      else if c == 'f' then
        if rest.take 4 == ['a', 'l', 's', 'e'] then some (.bool false, rest.drop 4) else none
      else if c == '\"' then
        (parseStrAux [] rest).map (fun p => (.str p.1, p.2))
      else if c == '[' then
        match skipWs rest with
        | [] => none
        | d :: r =>
          if d == ']' then some (.arr [], r)
          else (parseItems f (d :: r)).map (fun p => (.arr p.1, p.2))
      else if c == lb then
        match skipWs rest with
        | [] => none
        | d :: r =>
          if d == rb then some (.obj [], r)
          else (parseFields f (d :: r)).map (fun p => (.obj p.1, p.2))
      else if c == '-' || c.isDigit then
        (parseNum (c :: rest)).map (fun p => (.num p.1, p.2))
      else none

/-- Parses comma-separated array elements up to and including the closing
bracket. -/
def parseItems : Nat → List Char → Option (List Json × List Char)
  | 0, _ => none
  | f + 1, cs =>
    match parseVal f cs with
    | none => none
    | some (v, r) =>
      match skipWs r with
      | [] => none
      | e :: r2 =>
        if e == ',' then (parseItems f r2).map (fun p => (v :: p.1, p.2))
        else if e == ']' then some ([v], r2)
        else none

/-- Parses comma-separated object fields up to and including the closing
brace. -/
def parseFields : Nat → List Char → Option (List (String × Json) × List Char)
  | 0, _ => none
  | f + 1, cs =>
    match skipWs cs with
    | [] => none
    | c :: rest =>
      if c == '\"' then
        match parseStrAux [] rest with
        | none => none
        | some (k, r) =>
          match skipWs r with
          | [] => none
          | d :: r2 =>
            if d == ':' then
              match parseVal f r2 with
              | none => none
              | some (v, r3) =>
                match skipWs r3 with
                | [] => none
                | e :: r4 =>
                  if e == ',' then (parseFields f r4).map (fun p => ((k, v) :: p.1, p.2))
                  else if e == rb then some ([(k, v)], r4)
                  else none
            else none
      else none

end

/-- Model of JSON.parse on a character list: parse one value and require
that only whitespace remains. -/
def parseJson (cs : List Char) : Option Json :=
  match parseVal (cs.length + 1) cs with
  | some (v, r) => if (skipWs r).isEmpty then some v else none
  | none => none

/-!
Model of the extraction regular expression: three backticks, an optional
whitespace run, an optional literal tag word, another optional whitespace
run, an optional newline, then a lazily matched non-empty body followed by
an optional newline and three closing backticks.  The JavaScript regex
engine scans for the leftmost starting position admitting a match and
backtracks through the optional parts greedily, extending the lazy body one
character at a time.  The functions below reproduce that search order
explicitly.
-/

/-- Remainders after the greedy optional whitespace run, longest first. -/
def wsAlts : List Char → List (List Char)
  | [] => [[]]
  | c :: cs => if isWsChar c then wsAlts cs ++ [c :: cs] else [c :: cs]

/-- Remainders after the optional literal tag word, consuming it first. -/
def jsonAltsOf (cs : List Char) : List (List Char) :=
  if cs.take 4 == "json".data then [cs.drop 4, cs] else [cs]

/-- Remainders after the greedy optional newline. -/
def nlAlts : List Char → List (List Char)
  | [] => [[]]
  | c :: cs => if c == '\n' then [cs, c :: cs] else [c :: cs]

/-- All remainders after the opening delimiter parts of the fence regex, in
backtracking priority order. -/
def openAlts (cs : List Char) : List (List Char) :=
  (wsAlts cs).flatMap (fun a =>
    (jsonAltsOf a).flatMap (fun b =>
      (wsAlts b).flatMap nlAlts))

/-- Does the closing part of the regex (optional newline then three
backticks) match a prefix of the given remainder? -/
def tailOk (cs : List Char) : Bool :=
  cs.take 4 == '\n' :: ticks || cs.take 3 == ticks

/-- Lazy body search: extends the captured body one character at a time and
stops as soon as the closing part matches. -/
def findContent (acc : List Char) : List Char → Option (List Char)
  | [] => none
  | c :: rest =>
    if tailOk rest then some ((c :: acc).reverse) else findContent (c :: acc) rest

/-- Attempts a fence match immediately after an opening triple backtick. -/
def matchAt (cs : List Char) : Option (List Char) :=
  (openAlts cs).findSome? (findContent [])

/-- Leftmost search for the fence regex over the whole text; returns the
captured body of the first successful match. -/
def fencedSearch : List Char → Option (List Char)
  | [] => none
  | c :: cs =>
    if (c :: cs).take 3 == ticks then
      match matchAt ((c :: cs).drop 3) with
      | some m => some m
      | none => fencedSearch cs
    else fencedSearch cs

/-- JavaScript String.indexOf for a single character: first index or -1. -/
def indexOfJS (cs : List Char) (c : Char) : Int :=
  if c ∈ cs then ((cs.indexOf c : Nat) : Int) else -1

/-- JavaScript String.lastIndexOf for a single character: last index or -1. -/
def lastIndexOfJS (cs : List Char) (c : Char) : Int :=
  if c ∈ cs then ((cs.length - 1 - cs.reverse.indexOf c : Nat) : Int) else -1

/-- JavaScript String.slice with the non-negative arguments the server
passes (the first brace index and one past the last brace index). -/
def sliceJS (cs : List Char) (a b : Int) : List Char :=
  (cs.drop a.toNat).take (b.toNat - a.toNat)

/-- Candidate-extraction block shared verbatim by the soft-skills analyze,
resume analyze (both its app.py and Groq-only paths) and marks analyze
endpoints: take the fenced body if the regex matches, otherwise slice from
the first left brace to one past the last right brace when the slice is
non-degenerate, otherwise keep the whole text. -/
def extractCandidate (content : List Char) : List Char :=
  match fencedSearch content with
  | some m => m
  | none =>
    let jsonStart : Int := indexOfJS content lb
    let jsonEnd : Int := lastIndexOfJS content rb + 1
    if jsonStart ≠ -1 ∧ jsonEnd > jsonStart then sliceJS content jsonStart jsonEnd
    else content

/-- Candidate extraction of the profile-analyze endpoint: the regex match
defaulted to the whole content, with no brace-slicing middle strategy. -/
def profileExtractCandidate (content : List Char) : List Char :=
  match fencedSearch content with
  | some m => m
  | none => content

/-- Extraction followed by parsing, as each endpoint composes them. -/
def extractJson (content : List Char) : Option Json :=
  parseJson (extractCandidate content)

/-- Fenced serialization: a tagged code fence wrapped around a payload, the
shape the LLM is instructed to answer in. -/
def fenceChars (s : List Char) : List Char :=
  ticks ++ "json".data ++ '\n' :: (s ++ '\n' :: ticks)

/-- Modelled from the spec's words for comparison with the code: the index
of the first occurrence of a character, when it occurs. -/
def firstIdx (cs : List Char) (c : Char) : Option Nat :=
  if c ∈ cs then some (cs.indexOf c) else none

/-- Modelled from the spec's words for comparison with the code: the index
of the last occurrence of a character, when it occurs. -/
def lastIdx (cs : List Char) (c : Char) : Option Nat :=
  if c ∈ cs then some (cs.length - 1 - cs.reverse.indexOf c) else none

/-- Modelled from the spec's words for comparison with the code: the three
ordered extraction strategies with the first match winning — fenced body,
else the slice from the first left brace to the last right brace when the
first precedes the last, else the full text. -/
def specExtract3 (content : List Char) : List Char :=
  match fencedSearch content with
  | some m => m
  | none =>
    match firstIdx content lb, lastIdx content rb with
    | some i, some j => if i < j then (content.drop i).take (j + 1 - i) else content
    | _, _ => content

/-- Fence-else-full-text extraction: strategies 1 and 3 only, with no
brace-slicing middle strategy. -/
def specExtract13 (content : List Char) : List Char :=
  match fencedSearch content with
  | some m => m
  | none => content

/-- Top-level field names of a JSON object. -/
def topKeys : Json → List String
  | .obj fs => fs.map (fun p => p.1)
  | _ => []

/-!
Soft-skills analyze endpoint (`POST /api/soft-skills/analyze`).
-/

/-- Outcome of a Groq chat-completion call: a transport/timeout error
carrying a message, or a completion text. -/
inductive LLMOutcome where
  | err (message : String) : LLMOutcome
  | ok (content : String) : LLMOutcome

/-- The five fixed assessment questions (question, category, skills). -/
def softSkillsQuestions : List (String × String × List String) :=
  [("Describe a challenging project you worked on and how you overcame the obstacles. What did you learn from this experience?",
    "Problem Solving & Resilience",
    ["problem_solving", "resilience", "learning_agility"]),
   ("Tell me about a time when you had to work with a difficult team member or in a challenging team environment. How did you handle the situation?",
    "Communication & Teamwork",
    ["communication", "teamwork", "conflict_resolution"]),
   ("Describe a situation where you had to learn a new technology or skill quickly to complete a task or project. What was your approach?",
    "Adaptability & Learning",
    ["adaptability", "learning_agility", "self_motivation"]),
   ("Give an example of when you had to take initiative or leadership in a project or situation, even when it wasn\x27t formally assigned to you.",
    "Leadership & Initiative",
    ["leadership", "initiative", "responsibility"]),
   ("Describe a time when you received constructive feedback or criticism. How did you respond, and what changes did you make as a result?",
    "Growth Mindset & Professionalism",
    ["growth_mindset", "professionalism", "self_awareness"])]

/-- The formatted responses array built before the LLM call: each submitted
answer is paired with its question's text, category and target skills, the
falsy-or-missing answer of an entry replaced by the empty string as the
code's default writes it.  The model reads each entry with the throw-free
property access of getField, so it covers requests whose five entries are
non-null values; a literal null entry would make the access itself throw
in JavaScript and reach the outer catch of the endpoint. -/
def formattedResponses (rs : List Json) : Json :=
  Json.arr (rs.enum.map (fun p =>
    let q := softSkillsQuestions.getD p.1 ("", "", [])
    Json.obj [
      ("question", Json.str q.1),
      ("category", Json.str q.2.1),
      ("targetSkills", Json.arr (q.2.2.map Json.str)),
      ("studentAnswer", jsOr (getField p.2 "answer") (Json.str "")),
      ("questionId", Json.num ((p.1 : Int) + 1))]))

/-- Default careerFitness object substituted when the parsed field is falsy. -/
def defaultCareerFitness : Json :=
  Json.obj [("technicalRoles", Json.num 5), ("managementRoles", Json.num 5),
            ("consultingRoles", Json.num 5), ("entrepreneurialRoles", Json.num 5)]

/-- Normalization applied to a successfully parsed soft-skills analysis:
each field is kept when truthy and replaced by its default otherwise.
This models the code's normalization object literal on the non-null parsed
values where its property accesses are defined; on a parsed null the
literal itself throws in the code, and the handler routes that case to the
same catch as a parse failure rather than through this function. -/
def normalizeSoftSkills (parsed : Json) (respArr : Json) (now : String) : Json :=
  Json.obj [
    ("overallSoftSkillsScore", jsOr (getField parsed "overallSoftSkillsScore") (Json.num 50)),
    ("skillBreakdown", jsOr (getField parsed "skillBreakdown") (Json.obj [])),
    ("strengths", jsOr (getField parsed "strengths") (Json.arr [])),
    ("areasForImprovement", jsOr (getField parsed "areasForImprovement") (Json.arr [])),
    ("developmentRecommendations", jsOr (getField parsed "developmentRecommendations") (Json.arr [])),
    ("personalityTraits", jsOr (getField parsed "personalityTraits") (Json.arr [])),
    ("careerFitness", jsOr (getField parsed "careerFitness") defaultCareerFitness),
    ("detailedAnalysis", jsOr (getField parsed "detailedAnalysis") (Json.str "Analysis completed successfully.")),
    ("assessmentDate", Json.str now),
    ("responses", respArr)]

/-- One skillBreakdown entry of the parse-failure fallback payload. -/
def fallbackSkillEntry (score : Int) : Json :=
  Json.obj [("score", Json.num score),
            ("feedback", Json.str "Assessment completed - detailed analysis available.")]

/-- The static payload substituted when the completion cannot be parsed. -/
def fallbackSoftSkills (respArr : Json) (now : String) : Json :=
  Json.obj [
    ("overallSoftSkillsScore", Json.num 70),
    ("skillBreakdown", Json.obj [
      ("communication", fallbackSkillEntry 7),
      ("teamwork", fallbackSkillEntry 7),
      ("problem_solving", fallbackSkillEntry 7),
      ("leadership", fallbackSkillEntry 6),
      ("adaptability", fallbackSkillEntry 7),
      ("learning_agility", fallbackSkillEntry 8),
      ("initiative", fallbackSkillEntry 6),
      ("professionalism", fallbackSkillEntry 7)]),
    ("strengths", Json.arr [Json.str "Completed comprehensive assessment"]),
    ("areasForImprovement", Json.arr [Json.str "Continue developing professional skills"]),
    ("developmentRecommendations", Json.arr [Json.str "Review detailed analysis for specific guidance"]),
    ("personalityTraits", Json.arr [Json.str "Engaged", Json.str "Thoughtful"]),
    ("careerFitness", Json.obj [("technicalRoles", Json.num 7), ("managementRoles", Json.num 6),
      ("consultingRoles", Json.num 6), ("entrepreneurialRoles", Json.num 6)]),
    ("detailedAnalysis", Json.str "Soft skills assessment completed. The student provided thoughtful responses to all questions, demonstrating engagement with the assessment process."),
    ("assessmentDate", Json.str now),
    ("responses", respArr)]

/-- Result of the soft-skills analyze handler: HTTP status, response body,
and whether the external LLM call was reached. -/
structure SSResult where
  status : Nat
  body : Json
  calledLLM : Bool

/-- Request validation: the responses field must be an array of length
exactly five. -/
def ssValid (body : Json) : Bool :=
  match getField body "responses" with
  | some (Json.arr rs) => rs.length == 5
  | _ => false

/-- The submitted responses array, empty when absent. -/
def ssResponses (body : Json) : List Json :=
  match getField body "responses" with
  | some (Json.arr rs) => rs
  | _ => []

/-- The soft-skills analyze handler.  The inner try wraps both JSON.parse
and the normalization object literal, so a parse failure and a parsed
null — whose property access throws — land in the same catch and receive
the static fallback payload.  The database save of the result onto a
student record happens after the body below is fixed and its failure is
swallowed, so it is not part of the model.  The `now` parameter stands for
the current ISO timestamp. -/
def softSkillsAnalyze (body : Json) (llm : LLMOutcome) (now : String) : SSResult :=
  if ssValid body = false then
    ⟨400, Json.obj [("success", Json.bool false),
      ("error", Json.str "All 5 question responses are required")], false⟩
  else
    match llm with
    | .err m =>
      ⟨500, Json.obj [("success", Json.bool false),
        ("error", Json.str "Error analyzing soft skills responses"),
        ("details", Json.str m)], true⟩
    | .ok content =>
      let formatted := formattedResponses (ssResponses body)
      let analysisData :=
        match parseJson (extractCandidate content.data) with
        | some Json.null => fallbackSoftSkills formatted now
        | some parsed => normalizeSoftSkills parsed formatted now
        | none => fallbackSoftSkills formatted now
      ⟨200, Json.obj [("success", Json.bool true), ("data", analysisData),
        ("message", Json.str "Soft skills assessment completed successfully")], true⟩

/-!
Profile analyze endpoint (`POST /api/students/usn/:usn/analyze`).
-/

/-- Normalization of a successfully parsed profile analysis, modelling the
completeAnalysis object literal on the non-null parsed values where its
property accesses are defined; on a parsed null the literal itself throws
in the code and the handler answers 500 without reaching this function. -/
def normalizeProfile (analysisData : Json) : Json :=
  Json.obj [
    ("strengths", jsOr (getField analysisData "strengths") (Json.arr [])),
    ("weaknesses", jsOr (getField analysisData "weaknesses") (Json.arr [])),
    ("recommendations", jsOr (getField analysisData "recommendations") (Json.arr [])),
    ("overallScore", jsOr (getField analysisData "overallScore") (Json.num 50)),
    ("skillGaps", jsOr (getField analysisData "skillGaps") (Json.arr [])),
    ("careerSuggestions", jsOr (getField analysisData "careerSuggestions") (Json.arr [])),
    ("learningPath", jsOr (getField analysisData "learningPath") (Json.arr [])),
    ("detailedAnalysis", jsOr (getField analysisData "detailedAnalysis") (Json.str "Analysis completed successfully."))]

/-- Result of the profile analyze handler. -/
structure ProfileResult where
  status : Nat
  body : Json

/-- The profile analyze handler.  Extraction uses the fence-else-full-text
form.  The inner try wraps JSON.parse, the completeAnalysis literal —
which throws on a parsed null receiver — and the persistence save of the
analysis onto the student record, so a parse failure, a parsed null and a
save failure all answer 500 from the inner catch; `saveOk` is the oracle
for that save. -/
def profileAnalyze (studentFound : Bool) (llm : LLMOutcome) (saveOk : Bool) : ProfileResult :=
  if studentFound = false then
    ⟨404, Json.obj [("error", Json.str "Student not found")]⟩
  else
    match llm with
    | .err _ => ⟨500, Json.obj [("error", Json.str "Error analyzing student data")]⟩
    | .ok content =>
      match parseJson (profileExtractCandidate content.data) with
      | some Json.null => ⟨500, Json.obj [("error", Json.str "Error generating analysis")]⟩
      | some parsed =>
        if saveOk then ⟨200, normalizeProfile parsed⟩
        else ⟨500, Json.obj [("error", Json.str "Error generating analysis")]⟩
      | none => ⟨500, Json.obj [("error", Json.str "Error generating analysis")]⟩

/-!
Resume analyze endpoint (`POST /api/analyze-resume`).
-/

/-- Outcome of the app.py extraction-service call: a transport error, or a
response carrying a success flag, the analysis text, and optional filename
and extracted-text-length metadata. -/
inductive AppPyOutcome where
  | err : AppPyOutcome
  | ok (success : Bool) (analysis : String) (filename : Option String) (etl : Option Int) : AppPyOutcome

/-- Oracle describing one run of the resume analyze endpoint: the staged
file, the health probe, the app.py call, the structuring Groq call of the
app.py path, and the Groq call of the Groq-only fallback path. -/
structure ResumeScenario where
  filePresent : Bool
  originalname : String
  isTxt : Bool
  txtContent : String
  fileSize : Nat
  healthOk : Bool
  appPy : AppPyOutcome
  structGroq : LLMOutcome
  fallbackGroq : LLMOutcome

/-- Result of the resume analyze handler, with the cleanup flag recording
whether the staged file was deleted. -/
structure ResumeResult where
  status : Nat
  body : Json
  fileDeleted : Bool

/-- Model of the idiom copying a field when it is an array and replacing it
by a default array otherwise. -/
def jsArrOr (x : Option Json) (d : List Json) : Json :=
  match x with
  | some (Json.arr l) => Json.arr l
  | _ => Json.arr d

/-- Model of the idiom `s || d` on an optionally present string. -/
def strOr (x : Option String) (d : String) : String :=
  match x with
  | some s => if s ≠ "" then s else d
  | none => d

/-- Default structure substituted when the structuring output of the app.py
path cannot be parsed. -/
def appPyCatchStructure : List (String × Json) :=
  [("skills", Json.arr [Json.str "Resume uploaded successfully"]),
   ("projects", Json.arr [Json.obj [("title", Json.str "Resume Analysis"),
      ("description", Json.str "Analysis completed - check detailed analysis")]]),
   ("experience", Json.arr [Json.obj [("company", Json.str "Analysis completed"),
      ("position", Json.str "See detailed analysis"), ("duration", Json.str "N/A")]]),
   ("education", Json.arr [Json.obj [("degree", Json.str "Analysis completed"),
      ("institution", Json.str "See detailed analysis"), ("year", Json.str "N/A")]])]

/-- Array-sanitization of a parsed structuring output in the app.py path. -/
def sanitizeResumeStructure (parsed : Json) : List (String × Json) :=
  [("skills", jsArrOr (getField parsed "skills") []),
   ("projects", jsArrOr (getField parsed "projects") []),
   ("experience", jsArrOr (getField parsed "experience") []),
   ("education", jsArrOr (getField parsed "education") [])]

/-- Final analysis result of the app.py path, tagged with source app.py. -/
def appPyAnalysisResult (basicStructure : List (String × Json)) (analysis : String)
    (filename : Option String) (etl : Option Int) (originalname : String) : Json :=
  Json.obj (basicStructure ++
    [("detailedAnalysis", Json.str analysis),
     ("filename", Json.str (strOr filename originalname)),
     ("extractedTextLength", Json.num (match etl with
        | some n => if n ≠ 0 then n else 0
        | none => 0)),
     ("source", Json.str "app.py")])

/-- Sanitized result of a parsed Groq-only analysis, tagged groq-fallback. -/
def groqSanitizedResult (groqResult : Json) (originalname : String) (fcLen : Nat) : Json :=
  Json.obj [
    ("skills", jsArrOr (getField groqResult "skills") [Json.str "Resume analysis completed"]),
    ("projects", jsArrOr (getField groqResult "projects")
      [Json.obj [("title", Json.str "Resume Uploaded"),
        ("description", Json.str "Resume has been uploaded and is ready for review")]]),
    ("experience", jsArrOr (getField groqResult "experience")
      [Json.obj [("company", Json.str "Resume Uploaded"),
        ("position", Json.str "Please review manually"), ("duration", Json.str "N/A")]]),
    ("education", jsArrOr (getField groqResult "education")
      [Json.obj [("degree", Json.str "Resume Uploaded"),
        ("institution", Json.str "Please review manually"), ("year", Json.str "N/A")]]),
    ("detailedAnalysis", jsOr (getField groqResult "detailedAnalysis")
      (Json.str "Resume uploaded successfully. Manual review recommended for detailed analysis.")),
    ("filename", Json.str originalname),
    ("extractedTextLength", Json.num (fcLen : Int)),
    ("source", Json.str "groq-fallback")]

/-- Static payload of the Groq-only path when parsing fails. -/
def basicFallbackResult (originalname : String) : Json :=
  Json.obj [
    ("skills", Json.arr [Json.str "Resume uploaded successfully"]),
    ("projects", Json.arr [Json.obj [("title", Json.str "Resume Analysis"),
      ("description", Json.str "Resume has been uploaded. Please review the file manually for detailed information.")]]),
    ("experience", Json.arr [Json.obj [("company", Json.str "Analysis pending"),
      ("position", Json.str "Manual review required"), ("duration", Json.str "N/A")]]),
    ("education", Json.arr [Json.obj [("degree", Json.str "Analysis pending"),
      ("institution", Json.str "Manual review required"), ("year", Json.str "N/A")]]),
    ("detailedAnalysis", Json.str "Resume uploaded successfully. The file is saved and can be reviewed manually. Automated analysis was not available."),
    ("filename", Json.str originalname),
    ("extractedTextLength", Json.num 0),
    ("source", Json.str "basic-fallback")]

/-- Static payload when the Groq-only call itself fails. -/
def uploadOnlyResult (originalname : String) : Json :=
  Json.obj [
    ("skills", Json.arr [Json.str "Resume uploaded"]),
    ("projects", Json.arr [Json.obj [("title", Json.str "Resume Upload"),
      ("description", Json.str "Your resume has been uploaded successfully")]]),
    ("experience", Json.arr [Json.obj [("company", Json.str "Upload completed"),
      ("position", Json.str "Ready for manual review"), ("duration", Json.str "N/A")]]),
    ("education", Json.arr [Json.obj [("degree", Json.str "Upload completed"),
      ("institution", Json.str "Ready for manual review"), ("year", Json.str "N/A")]]),
    ("detailedAnalysis", Json.str "Resume uploaded successfully. File is available for manual review."),
    ("filename", Json.str originalname),
    ("extractedTextLength", Json.num 0),
    ("source", Json.str "upload-only")]

/-- Groq-only fallback path of the resume endpoint. -/
def resumeGroqOnly (sc : ResumeScenario) : Json :=
  let fileContent := if sc.isTxt then sc.txtContent
    else "Resume file: " ++ sc.originalname ++ " (" ++ toString sc.fileSize ++ " bytes)"
  match sc.fallbackGroq with
  | .err _ => uploadOnlyResult sc.originalname
  | .ok content =>
    let c := if content = "" then "\x7b\x7d" else content
    match parseJson (extractCandidate c.data) with
    | some groqResult => groqSanitizedResult groqResult sc.originalname fileContent.length
    | none => basicFallbackResult sc.originalname

/-- The resume analyze handler.  A thrown error anywhere in the app.py path
(transport error on the upload call, a false success flag, or a structuring
transport error) is caught and control falls through to the Groq-only path;
only a structuring parse failure stays in the app.py path with the default
structure.  The staged file is deleted before the response on the success
path and inside the catch otherwise. -/
def resumeAnalyze (sc : ResumeScenario) : ResumeResult :=
  if sc.filePresent = false then
    ⟨400, Json.obj [("error", Json.str "No resume file uploaded"), ("success", Json.bool false)], false⟩
  else
    let viaAppPy : Option Json :=
      if sc.healthOk then
        match sc.appPy with
        | .err => none
        | .ok success analysis fn etl =>
          if success then
            match sc.structGroq with
            | .err _ => none
            | .ok content =>
              let c := if content = "" then "\x7b\x7d" else content
              let basicStructure :=
                match parseJson (extractCandidate c.data) with
                | some parsed => sanitizeResumeStructure parsed
                | none => appPyCatchStructure
              some (appPyAnalysisResult basicStructure analysis fn etl sc.originalname)
          else none
      else none
    match viaAppPy with
    | some resultBody => ⟨200, resultBody, true⟩
    | none => ⟨200, resumeGroqOnly sc, true⟩

/-!
Marks analyze endpoint (`POST /api/analyze-marks`).
-/

/-- Leading integer of a character list, as parseFloat and parseInt read
one (the model keeps the integer part only). -/
def leadingInt : List Char → Option Int
  | [] => none
  | c :: rest =>
    if c.isDigit then some (((readDigits (c :: rest) 0).1 : Nat) : Int)
    else if c == '-' then
      match rest with
      | d :: _ => if d.isDigit then some (-(((readDigits rest 0).1 : Nat) : Int)) else none
      | [] => none
    else none

/-- Model of parseFloat on the value shapes the marks normalizer feeds it:
a number passes through, a numeric-looking string is parsed, and anything
else is NaN (none). -/
def parseFloatJS : Json → Option Int
  | .num n => some n
  | .str s => leadingInt s.data
  | _ => none

/-- One normalized subject entry: name kept when truthy, score kept when a
number and otherwise coerced with parseFloat defaulting to zero. -/
def normalizeSubject (x : Json) : Json :=
  Json.obj [
    ("name", jsOr (getField x "name") (Json.str "Unknown Subject")),
    ("score", Json.num (match getField x "score" with
      | some (Json.num n) => n
      | some v => (parseFloatJS v).getD 0
      | none => 0))]

/-- Model of the idiom keeping a typeof-number value and otherwise coercing
with parseFloat, a falsy result becoming null. -/
def numOrNull (x : Option Json) : Json :=
  match x with
  | some (Json.num n) => Json.num n
  | some v =>
    match parseFloatJS v with
    | some m => if m ≠ 0 then Json.num m else Json.null
    | none => Json.null
  | none => Json.null

/-- The normalized basic marks data built from a parsed structuring output. -/
def normalizeMarksFields (parsed : Json) : List (String × Json) :=
  [("subjects", match getField parsed "subjects" with
     | some (Json.arr xs) => Json.arr (xs.map normalizeSubject)
     | _ => Json.arr []),
   ("totalPercentage", numOrNull (getField parsed "totalPercentage")),
   ("cgpa", numOrNull (getField parsed "cgpa")),
   ("semester", numOrNull (getField parsed "semester"))]

/-- Scan for the first digits on the same line after an occurrence of the
letters g-p-a in any case, continuing at later occurrences when a line has
none; models the GPA-recovery regular expression of the catch branch. -/
def findDigitsSameLine : List Char → Option Int
  | [] => none
  | c :: rest =>
    if c == '\n' then none
    else if c.isDigit then some (((readDigits (c :: rest) 0).1 : Nat) : Int)
    else findDigitsSameLine rest

/-- Case-insensitive scan for a GPA figure in the analysis text. -/
def gpaScan : List Char → Option Int
  | [] => none
  | c :: rest =>
    if ((c :: rest).take 3).map Char.toLower == ['g', 'p', 'a'] then
      match findDigitsSameLine ((c :: rest).drop 3) with
      | some g => some g
      | none => gpaScan rest
    else gpaScan rest

/-- Fallback basic marks data of the catch branch, recovering a GPA from
the raw analysis text when possible. -/
def marksCatchFields (analysis : String) : List (String × Json) :=
  let extractedGPA := gpaScan analysis.data
  [("subjects", Json.arr [Json.obj [("name", Json.str "Analysis completed"), ("score", Json.num 0)]]),
   ("totalPercentage", match extractedGPA with
     | some g => if g ≠ 0 then Json.num (g * 10) else Json.null
     | none => Json.null),
   ("cgpa", match extractedGPA with
     | some g => Json.num g
     | none => Json.null),
   ("semester", Json.null)]

/-- Oracle describing one run of the marks analyze endpoint. -/
structure MarksScenario where
  filePresent : Bool
  appPy : AppPyOutcome
  groq : LLMOutcome

/-- Result of the marks analyze handler. -/
structure MarksResult where
  status : Nat
  success : Bool
  data : Json
  fileDeleted : Bool

/-- Data object of the catch response of the marks endpoint. -/
def marksErrorData : Json :=
  Json.obj [("subjects", Json.arr []), ("totalPercentage", Json.null),
    ("cgpa", Json.null), ("semester", Json.null), ("detailedAnalysis", Json.null)]

/-- The marks analyze handler.  The staged file is deleted right after the
app.py call returns; every error path runs through a catch that attempts
the deletion again, and the catch answers with HTTP 200 and an empty data
object. -/
def marksAnalyze (sc : MarksScenario) : MarksResult :=
  if sc.filePresent = false then
    ⟨400, false, Json.null, false⟩
  else
    match sc.appPy with
    | .err => ⟨200, false, marksErrorData, true⟩
    | .ok success analysis fn etl =>
      if success then
        match sc.groq with
        | .err _ => ⟨200, false, marksErrorData, true⟩
        | .ok content =>
          let basicMarksData :=
            match parseJson (extractCandidate content.data) with
            | some parsed => normalizeMarksFields parsed
            | none => marksCatchFields analysis
          ⟨200, true,
            Json.obj (basicMarksData ++
              [("detailedAnalysis", Json.str analysis),
               ("filename", match fn with | some f => Json.str f | none => Json.null),
               ("extractedTextLength", match etl with | some n => Json.num n | none => Json.null)]),
            true⟩
      else ⟨200, false, marksErrorData, true⟩

/-!
Photo upload endpoint (`POST /api/upload-photo`).
-/

/-- Oracle describing one run of the photo upload endpoint. -/
structure PhotoScenario where
  filePresent : Bool
  cloudOk : Bool
  url : String

/-- Result of the photo upload handler. -/
structure PhotoResult where
  status : Nat
  body : Json
  fileDeleted : Bool

/-- The photo upload handler: on Cloudinary success the staged file is
deleted before answering, and the catch deletes it before the error
response. -/
def uploadPhoto (sc : PhotoScenario) : PhotoResult :=
  if sc.filePresent = false then
    ⟨400, Json.obj [("error", Json.str "No photo file uploaded")], false⟩
  else if sc.cloudOk then
    ⟨200, Json.obj [("url", Json.str sc.url)], true⟩
  else
    ⟨500, Json.obj [("error", Json.str "Error uploading photo")], true⟩

/-!
Student store and USN normalization (create, update, and USN lookups).
-/

/-- Model of JavaScript toUpperCase on the ASCII letters the USNs consist
of, using the core ASCII uppercase map. -/
def jsUpper (s : String) : String :=
  String.mk (s.data.map Char.toUpper)

/-- A string containing no lowercase ASCII letter. -/
def isUpperStr (s : String) : Bool :=
  s.data.all (fun c => !(decide (97 ≤ c.toNat) && decide (c.toNat ≤ 122)))

/-- Lookup by USN as the get-by-USN and analyze-by-USN endpoints perform
it: the queried USN is uppercased before the find. -/
def findByUsn (store : List (String × Json)) (q : String) : Option (String × Json) :=
  store.find? (fun p => p.1 == jsUpper q)

/-- The create handler: a truthy submitted USN is uppercased, an empty one
fails the schema's required validation (modelled from the mongoose schema
declaration), a duplicate normalized USN is rejected, and otherwise the
record is stored under the normalized USN. -/
def createStudent (store : List (String × Json)) (usnRaw : String) (data : Json) :
    Except String (List (String × Json)) :=
  let usn := if usnRaw ≠ "" then jsUpper usnRaw else usnRaw
  if usn = "" then Except.error "validation"
  else if (store.find? (fun p => p.1 == usn)).isSome then Except.error "duplicate"
  else Except.ok ((usn, data) :: store)

/-- The update handler restricted to its USN effect: an absent USN leaves
the store unchanged, an empty one fails update validation (modelled from
the mongoose schema declaration with runValidators), and a provided one is
uppercased before being stored on the addressed record. -/
def updateStudentUsn (store : List (String × Json)) (i : Nat) (usnRaw : Option String) :
    Except String (List (String × Json)) :=
  match usnRaw with
  | none => Except.ok store
  | some u =>
    if u = "" then Except.error "validation"
    else Except.ok (store.enum.map (fun p => if p.1 = i then (jsUpper u, p.2.2) else p.2))

/-!
Well-formedness of modelled JSON values.  The model restricts strings to
escape-free printable text: no quote, no backslash, no control character.
-/

/-- A character needing no escaping inside a JSON string literal. -/
def wfChar (c : Char) : Bool :=
  c != '\"' && c != '\\' && decide (32 ≤ c.toNat)

mutual

/-- Every string and key of the value scans true under the predicate. -/
def allStrB (pr : Char → Bool) : Json → Bool
  | .null => true
  | .bool _ => true
  | .num _ => true
  | .str s => s.data.all pr
  | .arr l => allStrListB pr l
  | .obj l => allStrFieldsB pr l

/-- List form of allStrB. -/
def allStrListB (pr : Char → Bool) : List Json → Bool
  | [] => true
  | x :: xs => allStrB pr x && allStrListB pr xs

/-- Field-list form of allStrB, also scanning the keys. -/
def allStrFieldsB (pr : Char → Bool) : List (String × Json) → Bool
  | [] => true
  | q :: qs => q.1.data.all pr && allStrB pr q.2 && allStrFieldsB pr qs

end

/-- Escape-free well-formedness of a value. -/
def wfJsonB (v : Json) : Bool := allStrB wfChar v

/-- No string of the value contains a backtick. -/
def noBtB (v : Json) : Bool := allStrB (fun c => c != bt) v

mutual

/-- Fuel sufficient for the parser on the serialization of a value. -/
def needVal : Json → Nat
  | .null => 1
  | .bool _ => 1
  | .num _ => 1
  | .str _ => 1
  | .arr [] => 1
  | .arr (x :: xs) => 1 + needItems (x :: xs)
  | .obj [] => 1
  | .obj (q :: qs) => 1 + needFields (q :: qs)

/-- Fuel sufficient for parseItems on serialized elements. -/
def needItems : List Json → Nat
  | [] => 1
  | x :: xs => 1 + max (needVal x) (needItems xs)

/-- Fuel sufficient for parseFields on serialized fields. -/
def needFields : List (String × Json) → Nat
  | [] => 1
  | q :: qs => 1 + max (needVal q.2) (needFields qs)

end

/-- A remainder that can legally follow a serialized value: nothing, or a
separator or closer. -/
def sepOk (cs : List Char) : Prop :=
  cs = [] ∨ ∃ c t, cs = c :: t ∧ (c = ',' ∨ c = ']' ∨ c = rb)

/-- The head of a remainder is not a digit. -/
def noDigitHead : List Char → Prop
  | [] => True
  | c :: _ => c.isDigit = false

theorem sepOk_nil : sepOk [] := Or.inl rfl

theorem sepOk_comma (t : List Char) : sepOk (',' :: t) :=
  Or.inr ⟨',', t, rfl, Or.inl rfl⟩

theorem sepOk_rbracket (t : List Char) : sepOk (']' :: t) :=
  Or.inr ⟨']', t, rfl, Or.inr (Or.inl rfl)⟩

theorem sepOk_rbrace (t : List Char) : sepOk (rb :: t) :=
  Or.inr ⟨rb, t, rfl, Or.inr (Or.inr rfl)⟩

theorem sepOk_noDigitHead {cs : List Char} (h : sepOk cs) : noDigitHead cs := by
  rcases h with h | ⟨c, t, rfl, hc⟩
  · subst h; trivial
  · rcases hc with rfl | rfl | rfl <;> simp [noDigitHead, rb]

theorem digitChar_isDigit (d : Nat) : (digitChar d).isDigit = true := by
  unfold digitChar
  split <;> decide

theorem digitChar_toNat (d : Nat) (h : d < 10) : (digitChar d).toNat = d + 48 := by
  interval_cases d <;> decide

/-- Collected disequalities needed to route a digit character through the
parser's dispatch. -/
theorem digitChar_props (d : Nat) :
    isWsChar (digitChar d) = false ∧ digitChar d ≠ 'n' ∧ digitChar d ≠ 't' ∧
    digitChar d ≠ 'f' ∧ digitChar d ≠ '\"' ∧ digitChar d ≠ '[' ∧ digitChar d ≠ lb ∧
    digitChar d ≠ ']' ∧ digitChar d ≠ rb ∧ digitChar d ≠ ',' ∧ digitChar d ≠ bt ∧
    digitChar d ≠ '\n' ∧ digitChar d ≠ '-' ∧ digitChar d ≠ ':' := by
  unfold digitChar
  split <;> exact by decide

theorem skipWs_not_ws {c : Char} (h : isWsChar c = false) (cs : List Char) :
    skipWs (c :: cs) = c :: cs := by
  simp [skipWs, h]

theorem readDigits_stop {rest : List Char} (h : noDigitHead rest) (acc : Nat) :
    readDigits rest acc = (acc, rest) := by
  cases rest with
  | nil => rfl
  | cons c t => simp [noDigitHead] at h; simp [readDigits, h]

theorem readDigits_map (L : List Nat) (hL : ∀ d ∈ L, d < 10) (rest : List Char)
    (hrest : noDigitHead rest) (acc : Nat) :
    readDigits (L.map digitChar ++ rest) acc =
      (L.foldl (fun a d => a * 10 + d) acc, rest) := by
  induction L generalizing acc with
  | nil => simpa using readDigits_stop hrest acc
  | cons d L ih =>
    have hd : d < 10 := hL d (by simp)
    have hL' : ∀ e ∈ L, e < 10 := fun e he => hL e (by simp [he])
    simp only [List.map_cons, List.cons_append, readDigits, digitChar_isDigit, if_true]
    rw [digitChar_toNat d hd]
    simpa [Nat.add_sub_cancel] using ih hL' (acc * 10 + d)

theorem foldl_mul_add (L : List Nat) (acc : Nat) :
    L.foldl (fun a d => a * 10 + d) acc = acc * 10 ^ L.length + Nat.ofDigits 10 L.reverse := by
  induction L generalizing acc with
  | nil => simp [Nat.ofDigits]
  | cons d L ih =>
    rw [List.foldl_cons, ih (acc * 10 + d)]
    rw [List.reverse_cons, Nat.ofDigits_append]
    simp [Nat.ofDigits_singleton, List.length_reverse, pow_succ]
    ring

theorem readDigits_natChars (m : Nat) {rest : List Char} (hrest : noDigitHead rest) :
    readDigits (natChars m ++ rest) 0 = (m, rest) := by
  by_cases hm : m = 0
  · subst hm
    simp only [natChars, if_pos rfl, List.cons_append, List.nil_append, readDigits]
    norm_num
    exact readDigits_stop hrest 0
  · have hL : ∀ d ∈ (Nat.digits 10 m).reverse, d < 10 := by
      intro d hd
      exact Nat.digits_lt_base (by norm_num) (List.mem_reverse.mp hd)
    rw [natChars, if_neg hm, readDigits_map _ hL rest hrest 0, foldl_mul_add]
    simp [Nat.ofDigits_digits]

/-- Shape and dispatch properties of the serialized integer: it is
non-empty and its head is a minus sign or a digit. -/
theorem natChars_shape (m : Nat) :
    ∃ c t, natChars m = c :: t ∧ c.isDigit = true := by
  by_cases hm : m = 0
  · subst hm; exact ⟨'0', [], rfl, by decide⟩
  · have hne : Nat.digits 10 m ≠ [] := Nat.digits_ne_nil_iff_ne_zero.mpr hm
    rcases hrev : (Nat.digits 10 m).reverse with _ | ⟨d, L⟩
    · exact absurd (by simpa using congrArg List.reverse hrev) hne
    · exact ⟨digitChar d, L.map digitChar, by rw [natChars, if_neg hm, hrev]; rfl,
        digitChar_isDigit d⟩

theorem digitChar_ne_zero {d : Nat} (hd : d ≠ 0) (h10 : d < 10) : digitChar d ≠ '0' := by
  interval_cases d
  · exact absurd rfl hd
  all_goals decide

/-- For a nonzero number the leading serialized digit is nonzero. -/
theorem natChars_head_ne_zero (m : Nat) (hm : m ≠ 0) :
    ∃ d t, natChars m = digitChar d :: t ∧ d ≠ 0 ∧ d < 10 := by
  have hne : Nat.digits 10 m ≠ [] := Nat.digits_ne_nil_iff_ne_zero.mpr hm
  rcases hrev : (Nat.digits 10 m).reverse with _ | ⟨d, L⟩
  · exact absurd (by simpa using congrArg List.reverse hrev) hne
  · refine ⟨d, L.map digitChar, by rw [natChars, if_neg hm, hrev]; rfl, ?_, ?_⟩
    · have h1 := List.getLast?_eq_getLast (Nat.digits 10 m) hne
      rw [List.getLast?_eq_head?_reverse, hrev] at h1
      have h2 : (Nat.digits 10 m).getLast hne = d := (Option.some_inj.mp h1).symm
      have h3 := Nat.getLast_digit_ne_zero 10 hm
      rw [h2] at h3
      exact h3
    · have h4 : d ∈ (Nat.digits 10 m).reverse := by
        rw [hrev]
        exact List.mem_cons_self d L
      exact Nat.digits_lt_base (by norm_num) (List.mem_reverse.mp h4)

theorem leadingZero_of_ne {c : Char} (h : c ≠ '0') (cs : List Char) :
    leadingZero c cs = false := by
  have hb : (c == '0') = false := by simpa using h
  simp [leadingZero, hb]

theorem leadingZero_noDigitHead (c : Char) {rest : List Char} (h : noDigitHead rest) :
    leadingZero c rest = false := by
  cases rest with
  | nil => simp [leadingZero]
  | cons e t =>
    simp only [noDigitHead] at h
    simp [leadingZero, h]

theorem parseNum_intChars (n : Int) {rest : List Char} (hrest : noDigitHead rest) :
    parseNum (intChars n ++ rest) = some (n, rest) := by
  by_cases hn : n < 0
  · have hm : n.natAbs ≠ 0 := by omega
    obtain ⟨d, t, hct, hd0, hd10⟩ := natChars_head_ne_zero n.natAbs hm
    have hdig := digitChar_isDigit d
    rw [intChars, if_pos hn, List.cons_append]
    simp only [parseNum]
    have h1 : ('-' == '-') = true := by decide
    rw [if_pos h1, hct]
    simp only [List.cons_append]
    rw [if_pos hdig]
    rw [if_neg (by simp [leadingZero_of_ne (digitChar_ne_zero hd0 hd10) (t ++ rest)])]
    rw [← List.cons_append, ← hct, readDigits_natChars n.natAbs hrest]
    have hval : -((n.natAbs : Nat) : Int) = n := by omega
    rw [hval]
  · by_cases hm : n.toNat = 0
    · have hct : natChars n.toNat = ['0'] := by rw [hm]; rfl
      rw [intChars, if_neg hn, hct, List.cons_append, List.nil_append]
      simp only [parseNum]
      rw [if_neg (by decide), if_pos (by decide)]
      rw [if_neg (by simp [leadingZero_noDigitHead '0' hrest])]
      rw [show ('0' :: rest) = natChars n.toNat ++ rest by rw [hct]; rfl]
      rw [readDigits_natChars n.toNat hrest]
      have hval : ((n.toNat : Nat) : Int) = n := by omega
      rw [hval]
    · obtain ⟨d, t, hct, hd0, hd10⟩ := natChars_head_ne_zero n.toNat hm
      have hdig := digitChar_isDigit d
      rw [intChars, if_neg hn, hct, List.cons_append]
      simp only [parseNum]
      have h1 : (digitChar d == '-') = false := by
        have hne : digitChar d ≠ '-' := (digitChar_props d).2.2.2.2.2.2.2.2.2.2.2.2.1
        simpa using hne
      rw [if_neg (by simp [h1]), if_pos hdig]
      rw [if_neg (by simp [leadingZero_of_ne (digitChar_ne_zero hd0 hd10) (t ++ rest)])]
      rw [← List.cons_append, ← hct, readDigits_natChars n.toNat hrest]
      have hval : ((n.toNat : Nat) : Int) = n := by omega
      rw [hval]

theorem parseStrAux_spec (l : List Char) (hl : ∀ c ∈ l, wfChar c = true)
    (acc rest : List Char) :
    parseStrAux acc (l ++ '\"' :: rest) = some (String.mk (acc.reverse ++ l), rest) := by
  induction l generalizing acc with
  | nil => simp [parseStrAux]
  | cons c l ih =>
    have hc : wfChar c = true := hl c (by simp)
    have h1 : c ≠ '\"' := by
      intro h; rw [h] at hc; exact absurd hc (by decide)
    have h2 : c ≠ '\\' := by
      simp only [wfChar, Bool.and_eq_true, bne_iff_ne, ne_eq] at hc
      exact hc.1.2
    have h3 : ¬ c.toNat < 32 := by
      simp only [wfChar, Bool.and_eq_true, decide_eq_true_eq] at hc
      omega
    have hl' : ∀ e ∈ l, wfChar e = true := fun e he => hl e (by simp [he])
    simp only [List.cons_append, parseStrAux, List.append_eq]
    rw [if_neg (by simpa using h1), if_neg (by simpa using h2), if_neg (by simpa using h3)]
    rw [ih hl' (c :: acc)]
    simp

theorem string_mk_data (s : String) : String.mk s.data = s := rfl

theorem needVal_pos (v : Json) : 1 ≤ needVal v := by
  cases v with
  | null => simp [needVal]
  | bool b => simp [needVal]
  | num n => simp [needVal]
  | str s => simp [needVal]
  | arr l => cases l <;> simp [needVal]
  | obj l => cases l <;> simp [needVal]

theorem needItems_pos (l : List Json) : 1 ≤ needItems l := by
  cases l <;> simp [needItems]

theorem needFields_pos (l : List (String × Json)) : 1 ≤ needFields l := by
  cases l <;> simp [needFields]

theorem natChars_shape' (m : Nat) : ∃ d t, natChars m = digitChar d :: t := by
  by_cases hm : m = 0
  · exact ⟨0, [], by subst hm; rfl⟩
  · have hne : Nat.digits 10 m ≠ [] := Nat.digits_ne_nil_iff_ne_zero.mpr hm
    rcases hrev : (Nat.digits 10 m).reverse with _ | ⟨d, L⟩
    · exact absurd (by simpa using congrArg List.reverse hrev) hne
    · exact ⟨d, L.map digitChar, by rw [natChars, if_neg hm, hrev]; rfl⟩

/-- Shape and dispatch properties of the head of a serialized integer. -/
theorem intChars_head (n : Int) :
    ∃ c t, intChars n = c :: t ∧ isWsChar c = false ∧ c ≠ 'n' ∧ c ≠ 't' ∧ c ≠ 'f' ∧
      c ≠ '\"' ∧ c ≠ '[' ∧ c ≠ lb ∧ c ≠ ']' ∧ c ≠ rb ∧
      ((c == '-') || c.isDigit) = true := by
  by_cases hn : n < 0
  · refine ⟨'-', natChars n.natAbs, by rw [intChars, if_pos hn], ?_, ?_, ?_, ?_, ?_, ?_, ?_, ?_, ?_, ?_⟩
      <;> decide
  · obtain ⟨d, t, hnat⟩ := natChars_shape' n.toNat
    obtain ⟨hws, h1, h2, h3, h4, h5, h6, h7, h8, _⟩ := digitChar_props d
    refine ⟨digitChar d, t, by rw [intChars, if_neg hn, hnat], hws, h1, h2, h3, h4, h5, h6, h7, h8, ?_⟩
    simp [digitChar_isDigit d]

/-- Shape and dispatch properties of the head of any serialized value. -/
theorem stringify_head (v : Json) :
    ∃ c t, stringifyVal v = c :: t ∧ isWsChar c = false ∧ c ≠ ']' ∧ c ≠ rb := by
  cases v with
  | null => exact ⟨'n', _, rfl, rfl, by decide, by decide⟩
  | bool b =>
    cases b with
    | true => exact ⟨'t', _, rfl, rfl, by decide, by decide⟩
    | false => exact ⟨'f', _, rfl, rfl, by decide, by decide⟩
  | num n =>
    obtain ⟨c, t, hct, hws, _, _, _, _, _, _, h7, h8, _⟩ := intChars_head n
    exact ⟨c, t, by rw [stringifyVal, hct], hws, h7, h8⟩
  | str s => exact ⟨'\"', _, rfl, rfl, by decide, by decide⟩
  | arr l => exact ⟨'[', _, rfl, rfl, by decide, by decide⟩
  | obj l => exact ⟨lb, _, rfl, rfl, by decide, by decide⟩

/-- Round trip of the parser over the serializer, stated for all three
mutual parsing functions and proved by induction on the fuel. -/
theorem parse_rt (f : Nat) :
    (∀ v rest, wfJsonB v = true → needVal v ≤ f → sepOk rest →
       parseVal f (stringifyVal v ++ rest) = some (v, rest)) ∧
    (∀ l rest, l ≠ [] → allStrListB wfChar l = true → needItems l ≤ f → sepOk rest →
       parseItems f (stringifyItems l ++ rest) = some (l, rest)) ∧
    (∀ l rest, l ≠ [] → allStrFieldsB wfChar l = true → needFields l ≤ f → sepOk rest →
       parseFields f (stringifyFields l ++ rest) = some (l, rest)) := by
  induction f with
  | zero =>
    refine ⟨fun v rest _ hneed _ => absurd hneed (by have := needVal_pos v; omega),
            fun l rest _ _ hneed _ => absurd hneed (by have := needItems_pos l; omega),
            fun l rest _ _ hneed _ => absurd hneed (by have := needFields_pos l; omega)⟩
  | succ f ih =>
    obtain ⟨ihv, ihi, ihf⟩ := ih
    refine ⟨?_, ?_, ?_⟩
    · intro v rest hwf hneed hsep
      cases v with
      | null => rfl
      | bool b => cases b <;> rfl
      | num n =>
        obtain ⟨c, t, hct, hws, h1, h2, h3, h4, h5, h6, _, _, hnum⟩ := intChars_head n
        have hpn : parseNum (c :: (t ++ rest)) = some (n, rest) := by
          rw [← List.cons_append, ← hct]
          exact parseNum_intChars n (sepOk_noDigitHead hsep)
        have hstr : stringifyVal (Json.num n) ++ rest = c :: (t ++ rest) := by
          rw [stringifyVal, hct]; rfl
        rw [hstr]
        simp [parseVal, skipWs, hws, h1, h2, h3, h4, h5, h6, hnum, hpn]
      | str s =>
        have hwf' : ∀ c ∈ s.data, wfChar c = true := by
          simpa [wfJsonB, allStrB, List.all_eq_true] using hwf
        have hps := parseStrAux_spec s.data hwf' [] rest
        have hassoc : stringifyVal (Json.str s) ++ rest = '\"' :: (s.data ++ '\"' :: rest) := by
          simp [stringifyVal]
        rw [hassoc]
        simp [parseVal, skipWs, isWsChar, hps, string_mk_data]
      | arr l =>
        cases l with
        | nil => rfl
        | cons x xs =>
          obtain ⟨c, t, hct, hws, hbr, _⟩ := stringify_head x
          obtain ⟨t', hti⟩ : ∃ t', stringifyItems (x :: xs) = c :: t' := by
            cases xs <;> simp [stringifyItems, hct]
          have hwf' : allStrListB wfChar (x :: xs) = true := by
            simpa [wfJsonB, allStrB] using hwf
          have hneed' : needItems (x :: xs) ≤ f := by
            rw [show needVal (Json.arr (x :: xs)) = 1 + needItems (x :: xs) from rfl] at hneed
            omega
          have hpi : parseItems f (c :: (t' ++ rest)) = some (x :: xs, rest) := by
            rw [← List.cons_append, ← hti]
            exact ihi (x :: xs) rest (by simp) hwf' hneed' hsep
          have hassoc : stringifyVal (Json.arr (x :: xs)) ++ rest = '[' :: (c :: (t' ++ rest)) := by
            simp [stringifyVal, hti]
          rw [hassoc]
          simp [parseVal, skipWs, hws, hbr, hpi, show isWsChar '[' = false from by decide]
      | obj l =>
        cases l with
        | nil => rfl
        | cons q qs =>
          obtain ⟨k, v⟩ := q
          obtain ⟨t', htf⟩ : ∃ t', stringifyFields ((k, v) :: qs) = '\"' :: t' := by
            cases qs <;> simp [stringifyFields]
          have hwf' : allStrFieldsB wfChar ((k, v) :: qs) = true := by
            simpa [wfJsonB, allStrB] using hwf
          have hneed' : needFields ((k, v) :: qs) ≤ f := by
            rw [show needVal (Json.obj ((k, v) :: qs)) = 1 + needFields ((k, v) :: qs) from rfl]
              at hneed
            omega
          have hpf : parseFields f ('\"' :: (t' ++ rest)) = some ((k, v) :: qs, rest) := by
            rw [← List.cons_append, ← htf]
            exact ihf ((k, v) :: qs) rest (by simp) hwf' hneed' hsep
          have hassoc : stringifyVal (Json.obj ((k, v) :: qs)) ++ rest =
              lb :: ('\"' :: (t' ++ rest)) := by
            simp [stringifyVal, htf]
          rw [hassoc]
          simp [parseVal, skipWs, isWsChar, hpf, lb, rb]
    · intro l rest hne hwf hneed hsep
      cases l with
      | nil => exact absurd rfl hne
      | cons x xs =>
        obtain ⟨hwx, hwxs⟩ := Bool.and_eq_true_iff.mp (by simpa [allStrListB] using hwf)
        have hmax : max (needVal x) (needItems xs) ≤ f := by
          rw [show needItems (x :: xs) = 1 + max (needVal x) (needItems xs) from rfl] at hneed
          omega
        obtain ⟨hnx, hnxs⟩ := Nat.max_le.mp hmax
        cases xs with
        | nil =>
          have hv := ihv x (']' :: rest) hwx hnx (sepOk_rbracket rest)
          have hassoc : stringifyItems [x] ++ rest = stringifyVal x ++ (']' :: rest) := by
            simp [stringifyItems]
          rw [hassoc]
          simp [parseItems, hv, skipWs, isWsChar]
        | cons y ys =>
          have hv := ihv x (',' :: (stringifyItems (y :: ys) ++ rest)) hwx hnx (sepOk_comma _)
          have hpi := ihi (y :: ys) rest (by simp) hwxs hnxs hsep
          have hassoc : stringifyItems (x :: y :: ys) ++ rest =
              stringifyVal x ++ (',' :: (stringifyItems (y :: ys) ++ rest)) := by
            simp [stringifyItems]
          rw [hassoc]
          simp [parseItems, hv, hpi, skipWs, isWsChar]
    · intro l rest hne hwf hneed hsep
      cases l with
      | nil => exact absurd rfl hne
      | cons q qs =>
        obtain ⟨k, v⟩ := q
        have hsplit : (k.data.all wfChar && allStrB wfChar v && allStrFieldsB wfChar qs)
            = true := by
          simpa [allStrFieldsB] using hwf
        obtain ⟨hkv, hwqs⟩ := Bool.and_eq_true_iff.mp hsplit
        obtain ⟨hk, hwv⟩ := Bool.and_eq_true_iff.mp hkv
        have hk' : ∀ c ∈ k.data, wfChar c = true := by
          simpa [List.all_eq_true] using hk
        have hmax : max (needVal v) (needFields qs) ≤ f := by
          rw [show needFields ((k, v) :: qs) = 1 + max (needVal v) (needFields qs) from rfl]
            at hneed
          omega
        obtain ⟨hnv, hnqs⟩ := Nat.max_le.mp hmax
        cases qs with
        | nil =>
          have hps := parseStrAux_spec k.data hk' [] (':' :: (stringifyVal v ++ (rb :: rest)))
          have hv := ihv v (rb :: rest) hwv hnv (sepOk_rbrace rest)
          have hassoc : stringifyFields [(k, v)] ++ rest =
              '\"' :: (k.data ++ '\"' :: (':' :: (stringifyVal v ++ (rb :: rest)))) := by
            simp [stringifyFields]
          rw [hassoc]
          simp [parseFields, skipWs, hps, hv, string_mk_data,
            show isWsChar '\"' = false from by decide, show isWsChar ':' = false from by decide,
            show isWsChar rb = false from by decide, show rb ≠ ',' from by decide]
        | cons q' qs' =>
          have hps := parseStrAux_spec k.data hk' []
            (':' :: (stringifyVal v ++ (',' :: (stringifyFields (q' :: qs') ++ rest))))
          have hv := ihv v (',' :: (stringifyFields (q' :: qs') ++ rest)) hwv hnv (sepOk_comma _)
          have hpf := ihf (q' :: qs') rest (by simp) hwqs hnqs hsep
          have hassoc : stringifyFields ((k, v) :: q' :: qs') ++ rest =
              '\"' :: (k.data ++ '\"' :: (':' :: (stringifyVal v ++
                (',' :: (stringifyFields (q' :: qs') ++ rest))))) := by
            simp [stringifyFields]
          rw [hassoc]
          simp [parseFields, skipWs, hps, hv, hpf, string_mk_data,
            show isWsChar '\"' = false from by decide, show isWsChar ':' = false from by decide,
            show isWsChar ',' = false from by decide, show isWsChar rb = false from by decide]

/-- The serialization of a value is never empty. -/
theorem stringify_ne_nil (v : Json) : stringifyVal v ≠ [] := by
  obtain ⟨c, t, hct, -⟩ := stringify_head v
  simp [hct]

/-- The parser fuel bound is dominated by the serialized length, proved for
the three mutual functions at once by induction on a size bound. -/
theorem need_le_len (n : Nat) :
    (∀ v : Json, sizeOf v ≤ n → needVal v ≤ (stringifyVal v).length) ∧
    (∀ l : List Json, sizeOf l ≤ n → needItems l ≤ (stringifyItems l).length) ∧
    (∀ l : List (String × Json), sizeOf l ≤ n → needFields l ≤ (stringifyFields l).length) := by
  induction n with
  | zero =>
    refine ⟨fun v h => absurd h ?_, fun l h => absurd h ?_, fun l h => absurd h ?_⟩
    · cases v <;> simp
    · cases l <;> simp
    · cases l <;> simp
  | succ n ih =>
    obtain ⟨ihv, ihi, ihf⟩ := ih
    refine ⟨?_, ?_, ?_⟩
    · intro v hsz
      cases v with
      | null => simp [needVal, stringifyVal]
      | bool b => cases b <;> simp [needVal, stringifyVal]
      | num m =>
        obtain ⟨c, t, hct, -⟩ := intChars_head m
        simp [needVal, stringifyVal, hct]
      | str s => simp [needVal, stringifyVal]
      | arr l =>
        cases l with
        | nil => simp [needVal, stringifyVal, stringifyItems]
        | cons x xs =>
          have hsz' : sizeOf (x :: xs) ≤ n := by
            have : sizeOf (Json.arr (x :: xs)) = 1 + sizeOf (x :: xs) := by simp
            omega
          have := ihi (x :: xs) hsz'
          simp only [needVal, stringifyVal, List.length_cons]
          omega
      | obj l =>
        cases l with
        | nil => simp [needVal, stringifyVal, stringifyFields]
        | cons q qs =>
          have hsz' : sizeOf (q :: qs) ≤ n := by
            have : sizeOf (Json.obj (q :: qs)) = 1 + sizeOf (q :: qs) := by simp
            omega
          have := ihf (q :: qs) hsz'
          obtain ⟨k, v⟩ := q
          simp only [needVal, stringifyVal, List.length_cons]
          omega
    · intro l hsz
      cases l with
      | nil => simp [needItems, stringifyItems]
      | cons x xs =>
        have hx : sizeOf x ≤ n := by
          have : sizeOf (x :: xs) = 1 + sizeOf x + sizeOf xs := by simp
          have : 0 < sizeOf xs := by cases xs <;> simp +arith
          omega
        have hxs : sizeOf xs ≤ n := by
          have : sizeOf (x :: xs) = 1 + sizeOf x + sizeOf xs := by simp
          have : 0 < sizeOf x := by cases x <;> simp +arith
          omega
        have h1 := ihv x hx
        obtain ⟨c, t, hct, -⟩ := stringify_head x
        have hpos : 1 ≤ (stringifyVal x).length := by simp [hct]
        cases xs with
        | nil =>
          have hmax : max (needVal x) (needItems ([] : List Json)) ≤ (stringifyVal x).length := by
            exact Nat.max_le.mpr ⟨h1, by simpa [needItems] using hpos⟩
          simp only [needItems, stringifyItems, List.length_append]
          simp at hmax ⊢
          omega
        | cons y ys =>
          have h2 := ihi (y :: ys) hxs
          have hmax : max (needVal x) (needItems (y :: ys)) ≤
              (stringifyVal x).length + (stringifyItems (y :: ys)).length :=
            Nat.max_le.mpr ⟨le_trans h1 (Nat.le_add_right _ _), le_trans h2 (Nat.le_add_left _ _)⟩
          rw [show needItems (x :: y :: ys) = 1 + max (needVal x) (needItems (y :: ys)) from rfl,
              show stringifyItems (x :: y :: ys) =
                stringifyVal x ++ ',' :: stringifyItems (y :: ys) from rfl]
          rw [List.length_append, List.length_cons]
          omega
    · intro l hsz
      cases l with
      | nil => simp [needFields, stringifyFields]
      | cons q qs =>
        obtain ⟨k, v⟩ := q
        have hv : sizeOf v ≤ n := by
          have h1 : sizeOf ((k, v) :: qs) = 1 + (1 + sizeOf k + sizeOf v) + sizeOf qs := by simp
          have h2 : 0 < sizeOf qs := by cases qs <;> simp +arith
          omega
        have hqs : sizeOf qs ≤ n := by
          have h1 : sizeOf ((k, v) :: qs) = 1 + (1 + sizeOf k + sizeOf v) + sizeOf qs := by simp
          omega
        have h1 := ihv v hv
        obtain ⟨c, t, hct, -⟩ := stringify_head v
        have hpos : 1 ≤ (stringifyVal v).length := by simp [hct]
        cases qs with
        | nil =>
          have hmax : max (needVal v) (needFields ([] : List (String × Json))) ≤
              (stringifyVal v).length := by
            exact Nat.max_le.mpr ⟨h1, by simpa [needFields] using hpos⟩
          simp only [needFields, stringifyFields, List.length_append, List.length_cons]
          simp at hmax ⊢
          omega
        | cons q' qs' =>
          have h2 := ihf (q' :: qs') hqs
          have hmax : max (needVal v) (needFields (q' :: qs')) ≤
              (stringifyVal v).length + (stringifyFields (q' :: qs')).length :=
            Nat.max_le.mpr ⟨le_trans h1 (Nat.le_add_right _ _), le_trans h2 (Nat.le_add_left _ _)⟩
          rw [show needFields ((k, v) :: q' :: qs') =
                1 + max (needVal v) (needFields (q' :: qs')) from rfl,
              show stringifyFields ((k, v) :: q' :: qs') =
                '\"' :: k.data ++ '\"' :: ':' :: stringifyVal v ++
                  ',' :: stringifyFields (q' :: qs') from rfl]
          simp only [List.length_append, List.length_cons]
          omega

/-- Full JSON.parse round trip on the serializer output. -/
theorem parseJson_stringify (v : Json) (hwf : wfJsonB v = true) :
    parseJson (stringifyVal v) = some v := by
  have hfuel : needVal v ≤ (stringifyVal v).length + 1 := by
    have := (need_le_len (sizeOf v)).1 v le_rfl
    omega
  have h := ((parse_rt ((stringifyVal v).length + 1)).1) v [] hwf hfuel sepOk_nil
  rw [List.append_nil] at h
  rw [parseJson, h]
  rfl

/-- Characters of a serialized integer are the minus sign or digits. -/
theorem mem_intChars {c : Char} {n : Int} (h : c ∈ intChars n) :
    c = '-' ∨ ∃ d, c = digitChar d := by
  have hnat : ∀ m : Nat, c ∈ natChars m → ∃ d, c = digitChar d := by
    intro m hm
    by_cases h0 : m = 0
    · subst h0
      simp [natChars] at hm
      exact ⟨0, hm⟩
    · rw [natChars, if_neg h0] at hm
      obtain ⟨d, -, hd⟩ := List.mem_map.mp hm
      exact ⟨d, hd.symm⟩
  rw [intChars] at h
  split at h
  · rcases List.mem_cons.mp h with h | h
    · exact Or.inl h
    · exact Or.inr (hnat _ h)
  · exact Or.inr (hnat _ h)

/-- A character excluded from every string of a value and distinct from all
structural characters does not occur in the serialization; proved for the
three mutual serializers at once by induction on a size bound. -/
theorem not_mem_stringify_aux (x : Char) (pr : Char → Bool)
    (hpr : ∀ c, pr c = true → c ≠ x)
    (hstruct : ∀ c ∈ (['n', 'u', 'l', 't', 'r', 'e', 'f', 'a', 's', '\"',
      '[', ']', ',', ':', '-', lb, rb] : List Char), c ≠ x)
    (hdig : ∀ d, digitChar d ≠ x) (n : Nat) :
    (∀ v, sizeOf v ≤ n → allStrB pr v = true → x ∉ stringifyVal v) ∧
    (∀ l : List Json, sizeOf l ≤ n → allStrListB pr l = true → x ∉ stringifyItems l) ∧
    (∀ l : List (String × Json), sizeOf l ≤ n → allStrFieldsB pr l = true →
      x ∉ stringifyFields l) := by
  have hxn : x ≠ 'n' := (hstruct 'n' (by simp)).symm
  have hxu : x ≠ 'u' := (hstruct 'u' (by simp)).symm
  have hxl : x ≠ 'l' := (hstruct 'l' (by simp)).symm
  have hxt : x ≠ 't' := (hstruct 't' (by simp)).symm
  have hxr : x ≠ 'r' := (hstruct 'r' (by simp)).symm
  have hxe : x ≠ 'e' := (hstruct 'e' (by simp)).symm
  have hxf : x ≠ 'f' := (hstruct 'f' (by simp)).symm
  have hxa : x ≠ 'a' := (hstruct 'a' (by simp)).symm
  have hxs : x ≠ 's' := (hstruct 's' (by simp)).symm
  have hxq : x ≠ '\"' := (hstruct '\"' (by simp)).symm
  have hxlb : x ≠ '[' := (hstruct '[' (by simp)).symm
  have hxrb : x ≠ ']' := (hstruct ']' (by simp)).symm
  have hxc : x ≠ ',' := (hstruct ',' (by simp)).symm
  have hxcol : x ≠ ':' := (hstruct ':' (by simp)).symm
  have hxm : x ≠ '-' := (hstruct '-' (by simp)).symm
  have hxLB : x ≠ lb := (hstruct lb (by simp)).symm
  have hxRB : x ≠ rb := (hstruct rb (by simp)).symm
  induction n with
  | zero =>
    refine ⟨fun v h => absurd h ?_, fun l h => absurd h ?_, fun l h => absurd h ?_⟩
    · cases v <;> simp
    · cases l <;> simp
    · cases l <;> simp
  | succ n ih =>
    obtain ⟨ihv, ihi, ihf⟩ := ih
    refine ⟨?_, ?_, ?_⟩
    · intro v hsz hall hmem
      cases v with
      | null =>
        rw [stringifyVal] at hmem
        simp [hxn, hxu, hxl] at hmem
      | bool b =>
        cases b <;> rw [stringifyVal] at hmem <;>
          simp [hxt, hxr, hxu, hxe, hxf, hxa, hxl, hxs] at hmem
      | num m =>
        rw [stringifyVal] at hmem
        rcases mem_intChars hmem with h | ⟨d, h⟩
        · exact hxm h
        · exact hdig d h.symm
      | str s =>
        have hsd : x ∉ s.data := by
          intro h
          have hall' : ∀ c ∈ s.data, pr c = true := by
            simpa [allStrB, List.all_eq_true] using hall
          exact hpr x (hall' x h) rfl
        rw [stringifyVal] at hmem
        simp [hxq, hsd] at hmem
      | arr l =>
        have hsz' : sizeOf l ≤ n := by
          have : sizeOf (Json.arr l) = 1 + sizeOf l := by simp
          omega
        have hrec : x ∉ stringifyItems l := ihi l hsz' (by simpa [allStrB] using hall)
        rw [stringifyVal] at hmem
        simp [hxlb, hrec] at hmem
      | obj l =>
        have hsz' : sizeOf l ≤ n := by
          have : sizeOf (Json.obj l) = 1 + sizeOf l := by simp
          omega
        have hrec : x ∉ stringifyFields l := ihf l hsz' (by simpa [allStrB] using hall)
        rw [stringifyVal] at hmem
        simp [hxLB, hrec] at hmem
    · intro l hsz hall hmem
      cases l with
      | nil =>
        rw [stringifyItems] at hmem
        simp [hxrb] at hmem
      | cons y xs =>
        obtain ⟨hay, haxs⟩ := Bool.and_eq_true_iff.mp (by simpa [allStrListB] using hall)
        have hys : sizeOf y ≤ n := by
          have h1 : sizeOf (y :: xs) = 1 + sizeOf y + sizeOf xs := by simp
          have h2 : 0 < sizeOf xs := by cases xs <;> simp +arith
          omega
        have hxss : sizeOf xs ≤ n := by
          have h1 : sizeOf (y :: xs) = 1 + sizeOf y + sizeOf xs := by simp
          have h2 : 0 < sizeOf y := by cases y <;> simp +arith
          omega
        have hy : x ∉ stringifyVal y := ihv y hys hay
        cases xs with
        | nil =>
          rw [stringifyItems] at hmem
          simp [hxrb, hy] at hmem
        | cons z zs =>
          have hzs : x ∉ stringifyItems (z :: zs) := ihi (z :: zs) hxss haxs
          rw [stringifyItems] at hmem
          simp [hxc, hy, hzs] at hmem
    · intro l hsz hall hmem
      cases l with
      | nil =>
        rw [stringifyFields] at hmem
        simp [hxRB] at hmem
      | cons q qs =>
        obtain ⟨k, v⟩ := q
        have hsplit : (k.data.all pr && allStrB pr v && allStrFieldsB pr qs) = true := by
          simpa [allStrFieldsB] using hall
        obtain ⟨hkv, hqs⟩ := Bool.and_eq_true_iff.mp hsplit
        obtain ⟨hk, hv⟩ := Bool.and_eq_true_iff.mp hkv
        have hkmem : x ∉ k.data := by
          intro h
          have hall' : ∀ c ∈ k.data, pr c = true := by simpa [List.all_eq_true] using hk
          exact hpr x (hall' x h) rfl
        have hvs : sizeOf v ≤ n := by
          have h1 : sizeOf ((k, v) :: qs) = 1 + (1 + sizeOf k + sizeOf v) + sizeOf qs := by simp
          have h2 : 0 < sizeOf qs := by cases qs <;> simp +arith
          omega
        have hqss : sizeOf qs ≤ n := by
          have h1 : sizeOf ((k, v) :: qs) = 1 + (1 + sizeOf k + sizeOf v) + sizeOf qs := by simp
          omega
        have hvmem : x ∉ stringifyVal v := ihv v hvs hv
        cases qs with
        | nil =>
          rw [stringifyFields] at hmem
          simp [hxq, hxcol, hxRB, hkmem, hvmem] at hmem
        | cons q' qs' =>
          have hrec : x ∉ stringifyFields (q' :: qs') := ihf (q' :: qs') hqss hqs
          rw [stringifyFields] at hmem
          simp [hxq, hxcol, hxc, hkmem, hvmem, hrec] at hmem

/-- A backtick never occurs in the serialization of a backtick-free value. -/
theorem bt_not_mem_stringify {v : Json} (h : noBtB v = true) : bt ∉ stringifyVal v :=
  (not_mem_stringify_aux bt (fun c => c != bt)
    (fun c hc => by simpa using hc)
    (by decide)
    (fun d => ((digitChar_props d).2.2.2.2.2.2.2.2.2.2.1))
    (sizeOf v)).1 v le_rfl h

/-- A newline never occurs in the serialization of a well-formed value. -/
theorem nl_not_mem_stringify {v : Json} (h : wfJsonB v = true) : '\n' ∉ stringifyVal v :=
  (not_mem_stringify_aux '\n' wfChar
    (fun c hc => by
      intro he
      subst he
      simp only [wfChar, Bool.and_eq_true, decide_eq_true_eq] at hc
      have hval : ('\n').toNat = 10 := by decide
      omega)
    (by decide)
    (fun d => ((digitChar_props d).2.2.2.2.2.2.2.2.2.2.2.1))
    (sizeOf v)).1 v le_rfl h

/-- The fence regex cannot match a text containing no backtick. -/
theorem fencedSearch_none {cs : List Char} (h : bt ∉ cs) : fencedSearch cs = none := by
  induction cs with
  | nil => rfl
  | cons c cs ih =>
    have hc : c ≠ bt := fun e => h (by simp [e])
    have hcs : bt ∉ cs := fun e => h (by simp [e])
    have hcond : ((c :: cs).take 3 == ticks) = false := by
      rw [beq_eq_false_iff_ne]
      intro heq
      rw [List.take_succ_cons, ticks] at heq
      injection heq with h1 _
      exact hc h1
    rw [fencedSearch, hcond]
    simp [ih hcs]

/-- The lazy body search captures exactly a newline-free, backtick-free
body followed by the closing newline and fence. -/
theorem findContent_spec (s : List Char) (hne : s ≠ []) (hbt : bt ∉ s) (hnl : '\n' ∉ s)
    (acc : List Char) :
    findContent acc (s ++ '\n' :: ticks) = some (acc.reverse ++ s) := by
  induction s generalizing acc with
  | nil => exact absurd rfl hne
  | cons c s ih =>
    cases s with
    | nil =>
      have ht : tailOk ('\n' :: ticks) = true := by decide
      simp [findContent, ht]
    | cons d s' =>
      have hd1 : d ≠ bt := fun e => hbt (by simp [e])
      have hd2 : d ≠ '\n' := fun e => hnl (by simp [e])
      have hbt' : bt ∉ d :: s' := fun e => hbt (by simp at e ⊢; tauto)
      have hnl' : '\n' ∉ d :: s' := fun e => hnl (by simp at e ⊢; tauto)
      have htail : tailOk (d :: (s' ++ '\n' :: ticks)) = false := by
        rw [tailOk, List.take_succ_cons, List.take_succ_cons]
        simp [ticks, hd1, hd2]
      have ihh := ih (by simp) hbt' hnl' (c :: acc)
      have he : findContent acc (c :: (d :: (s' ++ '\n' :: ticks))) =
          if tailOk (d :: (s' ++ '\n' :: ticks)) = true then some ((c :: acc).reverse)
          else findContent (c :: acc) (d :: (s' ++ '\n' :: ticks)) := rfl
      show findContent acc (c :: (d :: (s' ++ '\n' :: ticks))) = some (acc.reverse ++ c :: d :: s')
      rw [he, if_neg (by simp [htail])]
      rw [show findContent (c :: acc) (d :: (s' ++ '\n' :: ticks)) =
        some ((c :: acc).reverse ++ d :: s') from ihh]
      simp

/-- The fence regex on a fenced body with a non-whitespace head and no
backtick or newline captures exactly the body. -/
theorem fencedSearch_fence (c : Char) (t : List Char) (hws : isWsChar c = false)
    (hbt : bt ∉ c :: t) (hnl : '\n' ∉ c :: t) :
    fencedSearch (fenceChars (c :: t)) = some (c :: t) := by
  have hcnl : c ≠ '\n' := fun e => hnl (by simp [e])
  have hfc : findContent [] ((c :: t) ++ '\n' :: ticks) = some (c :: t) := by
    simpa using findContent_spec (c :: t) (by simp) hbt hnl []
  have hwsA : wsAlts ((c :: t) ++ '\n' :: ticks) = [(c :: t) ++ '\n' :: ticks] := by
    rw [List.cons_append, wsAlts, if_neg (by simp [hws])]
  have hwsB : wsAlts ('\n' :: ((c :: t) ++ '\n' :: ticks)) =
      [(c :: t) ++ '\n' :: ticks, '\n' :: ((c :: t) ++ '\n' :: ticks)] := by
    rw [wsAlts, if_pos (by decide), hwsA]
    rfl
  have hwsJ : wsAlts ('j' :: 's' :: 'o' :: 'n' :: '\n' :: ((c :: t) ++ '\n' :: ticks)) =
      [('j' :: 's' :: 'o' :: 'n' :: '\n' :: ((c :: t) ++ '\n' :: ticks))] := by
    rw [wsAlts, if_neg (by decide)]
  have hjA : jsonAltsOf ('j' :: 's' :: 'o' :: 'n' :: '\n' :: ((c :: t) ++ '\n' :: ticks)) =
      [('\n' :: ((c :: t) ++ '\n' :: ticks)),
       ('j' :: 's' :: 'o' :: 'n' :: '\n' :: ((c :: t) ++ '\n' :: ticks))] := by
    rw [jsonAltsOf, if_pos (by simp)]
    rfl
  have hnlA : nlAlts ((c :: t) ++ '\n' :: ticks) = [(c :: t) ++ '\n' :: ticks] := by
    rw [List.cons_append, nlAlts, if_neg (by simp [hcnl])]
  have hnlB : nlAlts ('\n' :: ((c :: t) ++ '\n' :: ticks)) =
      [(c :: t) ++ '\n' :: ticks, '\n' :: ((c :: t) ++ '\n' :: ticks)] := by
    rw [nlAlts, if_pos (by decide)]
  have hnlJ : nlAlts ('j' :: 's' :: 'o' :: 'n' :: '\n' :: ((c :: t) ++ '\n' :: ticks)) =
      [('j' :: 's' :: 'o' :: 'n' :: '\n' :: ((c :: t) ++ '\n' :: ticks))] := by
    rw [nlAlts, if_neg (by decide)]
  have hopen : openAlts ('j' :: 's' :: 'o' :: 'n' :: '\n' :: ((c :: t) ++ '\n' :: ticks)) =
      ((c :: t) ++ '\n' :: ticks) ::
        ((c :: t) ++ '\n' :: ticks) ::
          ('\n' :: ((c :: t) ++ '\n' :: ticks)) ::
            ('j' :: 's' :: 'o' :: 'n' :: '\n' :: ((c :: t) ++ '\n' :: ticks)) :: [] := by
    rw [openAlts, hwsJ]
    simp only [List.flatMap_cons, List.flatMap_nil, List.append_nil]
    rw [hjA]
    simp only [List.flatMap_cons, List.flatMap_nil, List.append_nil]
    rw [hwsB, hwsJ]
    simp only [List.flatMap_cons, List.flatMap_nil, List.append_nil]
    rw [hnlA, hnlB, hnlJ]
    simp
  have hmatch : matchAt ('j' :: 's' :: 'o' :: 'n' :: '\n' :: ((c :: t) ++ '\n' :: ticks)) =
      some (c :: t) := by
    rw [matchAt, hopen, List.findSome?_cons, hfc]
  have hfence : fenceChars (c :: t) =
      bt :: bt :: bt :: ('j' :: 's' :: 'o' :: 'n' :: '\n' :: ((c :: t) ++ '\n' :: ticks)) := by
    rw [fenceChars, ticks]
    rfl
  have he2 : fencedSearch (bt :: bt :: bt ::
      ('j' :: 's' :: 'o' :: 'n' :: '\n' :: ((c :: t) ++ '\n' :: ticks))) =
      if ((bt :: bt :: bt ::
            ('j' :: 's' :: 'o' :: 'n' :: '\n' :: ((c :: t) ++ '\n' :: ticks))).take 3
          == ticks) = true then
        match matchAt ('j' :: 's' :: 'o' :: 'n' :: '\n' :: ((c :: t) ++ '\n' :: ticks)) with
        | some m => some m
        | none => fencedSearch (bt :: bt ::
            ('j' :: 's' :: 'o' :: 'n' :: '\n' :: ((c :: t) ++ '\n' :: ticks)))
      else fencedSearch (bt :: bt ::
        ('j' :: 's' :: 'o' :: 'n' :: '\n' :: ((c :: t) ++ '\n' :: ticks))) := rfl
  rw [hfence, he2, if_pos (by simp [ticks]), hmatch]

/-- A serialized field list always ends with the closing brace. -/
theorem stringifyFields_last (l : List (String × Json)) :
    ∃ mid, stringifyFields l = mid ++ [rb] := by
  induction l with
  | nil => exact ⟨[], rfl⟩
  | cons q qs ih =>
    obtain ⟨k, v⟩ := q
    cases qs with
    | nil =>
      exact ⟨'\"' :: k.data ++ '\"' :: ':' :: stringifyVal v, by simp [stringifyFields]⟩
    | cons q' qs' =>
      obtain ⟨mid, hmid⟩ := ih
      exact ⟨'\"' :: k.data ++ '\"' :: ':' :: stringifyVal v ++ ',' :: mid,
        by simp [stringifyFields, hmid]⟩

/-- On the plain serialization of an object containing no backtick, the
shared candidate extraction returns the whole serialization: no fence
matches and the brace slice spans the full text. -/
theorem extractCandidate_obj (fs : List (String × Json))
    (hbt : bt ∉ stringifyVal (Json.obj fs)) :
    extractCandidate (stringifyVal (Json.obj fs)) = stringifyVal (Json.obj fs) := by
  obtain ⟨mid, hmid⟩ := stringifyFields_last fs
  have hsv : stringifyVal (Json.obj fs) = lb :: (mid ++ [rb]) := by rw [stringifyVal, hmid]
  have hfs : fencedSearch (stringifyVal (Json.obj fs)) = none := fencedSearch_none hbt
  have hidx : indexOfJS (lb :: (mid ++ [rb])) lb = 0 := by
    rw [indexOfJS, if_pos (by simp)]
    simp
  have hrev : (lb :: (mid ++ [rb])).reverse = rb :: (mid.reverse ++ [lb]) := by simp
  have hlast : lastIndexOfJS (lb :: (mid ++ [rb])) rb = ((mid.length + 1 : Nat) : Int) := by
    rw [lastIndexOfJS, if_pos (by simp), hrev]
    simp
  rw [extractCandidate, hfs, hsv]
  simp only [hidx, hlast]
  rw [if_pos (by refine ⟨by decide, ?_⟩; omega)]
  rw [sliceJS]
  have htn : (((mid.length + 1 : Nat) : Int) + 1).toNat = mid.length + 2 := by omega
  have hlen : (lb :: (mid ++ [rb])).length = mid.length + 2 := by simp
  rw [htn]
  simp only [Int.toNat_zero, Nat.sub_zero, List.drop_zero]
  rw [← hlen, List.take_length]

/-- Fenced round trip of extraction: on a fenced serialization of any
well-formed, backtick-free value, extraction recovers the value. -/
theorem extractJson_fence_rt (v : Json) (hwf : wfJsonB v = true) (hbt : noBtB v = true) :
    extractJson (fenceChars (stringifyVal v)) = some v := by
  obtain ⟨c, t, hct, hws, -, -⟩ := stringify_head v
  have hbtm : bt ∉ c :: t := hct ▸ bt_not_mem_stringify hbt
  have hnlm : '\n' ∉ c :: t := hct ▸ nl_not_mem_stringify hwf
  have hsearch : fencedSearch (fenceChars (stringifyVal v)) = some (stringifyVal v) := by
    rw [hct]
    exact fencedSearch_fence c t hws hbtm hnlm
  rw [extractJson, extractCandidate, hsearch]
  exact parseJson_stringify v hwf

/-- Plain round trip of extraction on objects: extraction after the brace
slice recovers the serialized object. -/
theorem extractJson_plain_rt (fs : List (String × Json))
    (hwf : wfJsonB (Json.obj fs) = true) (hbt : noBtB (Json.obj fs) = true) :
    extractJson (stringifyVal (Json.obj fs)) = some (Json.obj fs) := by
  rw [extractJson, extractCandidate_obj fs (bt_not_mem_stringify hbt)]
  exact parseJson_stringify _ hwf

/-- The shared candidate extraction of the four duplicated sites computes
exactly the specification's three ordered strategies. -/
theorem extractCandidate_eq_spec3 (content : List Char) :
    extractCandidate content = specExtract3 content := by
  cases hfs : fencedSearch content with
  | some m => rw [extractCandidate, specExtract3, hfs]
  | none =>
    have hcode : extractCandidate content =
        (if indexOfJS content lb ≠ -1 ∧ lastIndexOfJS content rb + 1 > indexOfJS content lb
         then sliceJS content (indexOfJS content lb) (lastIndexOfJS content rb + 1)
         else content) := by
      rw [extractCandidate, hfs]
    have hspec : specExtract3 content =
        (match firstIdx content lb, lastIdx content rb with
         | some i, some j => if i < j then (content.drop i).take (j + 1 - i) else content
         | _, _ => content) := by
      rw [specExtract3, hfs]
    rw [hcode, hspec]
    by_cases hlb : lb ∈ content
    · by_cases hrb : rb ∈ content
      · have hfi : firstIdx content lb = some (content.indexOf lb) := by
          rw [firstIdx, if_pos hlb]
        have hla : lastIdx content rb =
            some (content.length - 1 - content.reverse.indexOf rb) := by
          rw [lastIdx, if_pos hrb]
        have hio : indexOfJS content lb = ((content.indexOf lb : Nat) : Int) := by
          rw [indexOfJS, if_pos hlb]
        have hjs : lastIndexOfJS content rb =
            ((content.length - 1 - content.reverse.indexOf rb : Nat) : Int) := by
          rw [lastIndexOfJS, if_pos hrb]
        simp only [hfi, hla, hio, hjs]
        have hir : content.indexOf lb < content.length := List.indexOf_lt_length.mpr hlb
        have hrr : content.reverse.indexOf rb < content.length := by
          have := List.indexOf_lt_length.mpr (List.mem_reverse.mpr hrb)
          simpa using this
        have hci : content.get? (content.indexOf lb) = some lb := List.indexOf_get? hlb
        have hcj : content.get? (content.length - 1 - content.reverse.indexOf rb) = some rb := by
          have hrev := List.getElem?_reverse (l := content) (i := content.reverse.indexOf rb)
            (by simpa using hrr)
          have hcr : content.reverse.get? (content.reverse.indexOf rb) = some rb :=
            List.indexOf_get? (List.mem_reverse.mpr hrb)
          rw [List.get?_eq_getElem?] at hcr ⊢
          rw [← hrev]
          exact hcr
        have hne : content.indexOf lb ≠ content.length - 1 - content.reverse.indexOf rb := by
          intro e
          rw [e, hcj] at hci
          have hbad : rb = lb := by injection hci
          exact absurd hbad (by decide)
        by_cases hlt : content.indexOf lb < content.length - 1 - content.reverse.indexOf rb
        · rw [if_pos hlt]
          rw [if_pos (by omega)]
          rw [sliceJS]
          have h1 : (((content.indexOf lb : Nat) : Int)).toNat = content.indexOf lb := by omega
          have h2 : ((((content.length - 1 - content.reverse.indexOf rb : Nat)) : Int) + 1).toNat
              = (content.length - 1 - content.reverse.indexOf rb) + 1 := by omega
          rw [h1, h2]
        · rw [if_neg hlt]
          rw [if_neg (by omega)]
      · have hla : lastIdx content rb = none := by rw [lastIdx, if_neg hrb]
        have hjs : lastIndexOfJS content rb = -1 := by rw [lastIndexOfJS, if_neg hrb]
        have hfi : firstIdx content lb = some (content.indexOf lb) := by
          rw [firstIdx, if_pos hlb]
        have hio : indexOfJS content lb = ((content.indexOf lb : Nat) : Int) := by
          rw [indexOfJS, if_pos hlb]
        simp only [hla, hjs, hfi, hio]
        rw [if_neg (by omega)]
    · have hfi : firstIdx content lb = none := by rw [firstIdx, if_neg hlb]
      have hio : indexOfJS content lb = -1 := by rw [indexOfJS, if_neg hlb]
      simp only [hfi, hio]
      rw [if_neg (fun h => h.1 rfl)]

/-!
Concrete inputs used to instantiate the claim theorems.
-/

/-- A single valid questionnaire response. -/
def oneResponse : Json := Json.obj [("answer", Json.str "I led a team project last year.")]

/-- A request body with exactly five responses. -/
def validBody5 : Json :=
  Json.obj [("responses",
    Json.arr [oneResponse, oneResponse, oneResponse, oneResponse, oneResponse])]

/-- A request body with only four responses. -/
def shortBody4 : Json :=
  Json.obj [("responses", Json.arr [oneResponse, oneResponse, oneResponse, oneResponse])]

/-- A completion consisting of plain prose with no JSON content at all. -/
def proseReply : String := "Sorry, I can only provide prose feedback here."

/-- C7: a request whose responses field is missing, not an array, or of
length other than five is answered with the 400 validation error before the
LLM is called, so the fallback ladder is never entered. -/
theorem C7_validation_fail_fast (body : Json) (llm : LLMOutcome) (now : String)
    (h : ssValid body = false) :
    (softSkillsAnalyze body llm now).status = 400 ∧
    (softSkillsAnalyze body llm now).calledLLM = false := by
  unfold softSkillsAnalyze
  rw [if_pos h]
  exact ⟨rfl, rfl⟩

theorem C7_validation_fail_fast_witness :
    (softSkillsAnalyze shortBody4 (LLMOutcome.err "network timeout") "2025-01-01").status = 400 ∧
    (softSkillsAnalyze shortBody4 (LLMOutcome.err "network timeout") "2025-01-01").calledLLM
      = false :=
  C7_validation_fail_fast shortBody4 (LLMOutcome.err "network timeout") "2025-01-01" rfl

/-- C2 counterexample: normalizing the parsed value with no skillBreakdown
field leaves the skillBreakdown an empty object, so the eight declared
entries are not populated. -/
theorem C2_counterexample :
    getField (normalizeSoftSkills (Json.obj []) (Json.arr []) "2025-01-01") "skillBreakdown"
      = some (Json.obj []) ∧
    (getField (normalizeSoftSkills (Json.obj []) (Json.arr []) "2025-01-01")
        "skillBreakdown").bind (fun sb => getField sb "communication") = none :=
  ⟨rfl, rfl⟩

/-- C2 amended: on every parsed value other than null — the receivers on
which the normalization literal's property accesses are defined — the
normalized result is an object with exactly the ten declared top-level
fields, truthiness defaults filling the rest (an empty object for a
missing skillBreakdown, per the counterexample); at a parsed null the
literal itself throws in the code and the endpoint substitutes the static
70-score fallback payload instead of a normalized object. -/
theorem C2_amended :
    (∀ parsed respArr now, accessOk parsed →
       topKeys (normalizeSoftSkills parsed respArr now) =
         ["overallSoftSkillsScore", "skillBreakdown", "strengths", "areasForImprovement",
          "developmentRecommendations", "personalityTraits", "careerFitness",
          "detailedAnalysis", "assessmentDate", "responses"]) ∧
    (softSkillsAnalyze validBody5 (LLMOutcome.ok "null") "2025-01-01").status = 200 ∧
    getField (softSkillsAnalyze validBody5 (LLMOutcome.ok "null") "2025-01-01").body "data" =
      some (fallbackSoftSkills (formattedResponses (ssResponses validBody5)) "2025-01-01") :=
  ⟨fun _ _ _ _ => rfl, rfl, rfl⟩

theorem C2_amended_witness :
    topKeys (normalizeSoftSkills (Json.obj []) (Json.arr []) "2025-01-01") =
      ["overallSoftSkillsScore", "skillBreakdown", "strengths", "areasForImprovement",
       "developmentRecommendations", "personalityTraits", "careerFitness",
       "detailedAnalysis", "assessmentDate", "responses"] :=
  C2_amended.1 (Json.obj []) (Json.arr []) "2025-01-01" (fun h => Json.noConfusion h)

/-- C9 counterexample: a numeric score of zero present in the parsed object
is replaced by the default of fifty by the soft-skills normalization. -/
theorem C9_counterexample :
    getField (normalizeSoftSkills (Json.obj [("overallSoftSkillsScore", Json.num 0)])
        (Json.arr []) "2025-01-01") "overallSoftSkillsScore" = some (Json.num 50) ∧
    some (Json.num 50) ≠ some (Json.num 0) :=
  ⟨rfl, by simp⟩

/-- C9 amended: the marks normalization checks typeof and copies any
number, zero included, while the soft-skills normalization copies a present
field only when it is truthy, substituting the default for falsy values. -/
theorem C9_amended :
    (∀ p r now v, getField p "overallSoftSkillsScore" = some v → truthy v = true →
       getField (normalizeSoftSkills p r now) "overallSoftSkillsScore" = some v) ∧
    (∀ p n, getField p "cgpa" = some (Json.num n) →
       getField (Json.obj (normalizeMarksFields p)) "cgpa" = some (Json.num n)) ∧
    (∀ x n, getField x "score" = some (Json.num n) →
       getField (normalizeSubject x) "score" = some (Json.num n)) ∧
    (∀ p xs, getField p "subjects" = some (Json.arr xs) →
       getField (Json.obj (normalizeMarksFields p)) "subjects" =
         some (Json.arr (xs.map normalizeSubject))) := by
  refine ⟨?_, ?_, ?_, ?_⟩
  · intro p r now v h ht
    have houter : getField (normalizeSoftSkills p r now) "overallSoftSkillsScore" =
        some (jsOr (getField p "overallSoftSkillsScore") (Json.num 50)) := rfl
    rw [houter, h]
    simp [jsOr, ht]
  · intro p n h
    have houter : getField (Json.obj (normalizeMarksFields p)) "cgpa" =
        some (numOrNull (getField p "cgpa")) := rfl
    rw [houter, h]
    rfl
  · intro x n h
    have houter : getField (normalizeSubject x) "score" =
        some (Json.num (match getField x "score" with
          | some (Json.num n) => n
          | some v => (parseFloatJS v).getD 0
          | none => 0)) := rfl
    rw [houter, h]
  · intro p xs h
    have houter : getField (Json.obj (normalizeMarksFields p)) "subjects" =
        some (match getField p "subjects" with
          | some (Json.arr xs) => Json.arr (xs.map normalizeSubject)
          | _ => Json.arr []) := rfl
    rw [houter, h]

theorem C9_amended_witness :
    getField (normalizeSoftSkills (Json.obj [("overallSoftSkillsScore", Json.num 80)])
        (Json.arr []) "2025-01-01") "overallSoftSkillsScore" = some (Json.num 80) ∧
    getField (Json.obj (normalizeMarksFields (Json.obj [("cgpa", Json.num 0)]))) "cgpa" =
      some (Json.num 0) ∧
    getField (normalizeSubject (Json.obj [("score", Json.num 0)])) "score" =
      some (Json.num 0) ∧
    getField (Json.obj (normalizeMarksFields
        (Json.obj [("subjects", Json.arr [Json.obj [("score", Json.num 0)]])]))) "subjects" =
      some (Json.arr ([Json.obj [("score", Json.num 0)]].map normalizeSubject)) :=
  ⟨C9_amended.1 _ _ _ _ rfl rfl, C9_amended.2.1 _ 0 rfl, C9_amended.2.2.1 _ 0 rfl,
   C9_amended.2.2.2 _ _ rfl⟩

/-- C5 counterexample: on plain prose with no JSON, the soft-skills
endpoint answers with the default payload whose score is seventy, but the
payload carries no source field at all, so its provenance does not equal
the basic-fallback tag. -/
theorem C5_counterexample :
    (getField (softSkillsAnalyze validBody5 (LLMOutcome.ok proseReply) "2025-01-01").body
        "data").bind (fun d => getField d "overallSoftSkillsScore") = some (Json.num 70) ∧
    (getField (softSkillsAnalyze validBody5 (LLMOutcome.ok proseReply) "2025-01-01").body
        "data").bind (fun d => getField d "source") = none :=
  ⟨rfl, rfl⟩

/-- C5 amended: when a valid request's completion cannot be parsed, the
endpoint answers 200 with the static fallback payload, whose overall score
is seventy and which carries no source or provenance field. -/
theorem C5_amended (body : Json) (now : String) (content : String)
    (hvalid : ssValid body = true)
    (hparse : parseJson (extractCandidate content.data) = none) :
    (softSkillsAnalyze body (LLMOutcome.ok content) now).status = 200 ∧
    getField (softSkillsAnalyze body (LLMOutcome.ok content) now).body "data" =
      some (fallbackSoftSkills (formattedResponses (ssResponses body)) now) ∧
    getField (fallbackSoftSkills (formattedResponses (ssResponses body)) now)
      "overallSoftSkillsScore" = some (Json.num 70) ∧
    getField (fallbackSoftSkills (formattedResponses (ssResponses body)) now) "source"
      = none := by
  unfold softSkillsAnalyze
  rw [if_neg (by simp [hvalid])]
  refine ⟨by simp [hparse], by simp [hparse, getField], rfl, rfl⟩

theorem C5_amended_witness :
    (softSkillsAnalyze validBody5 (LLMOutcome.ok proseReply) "2025-01-01").status = 200 ∧
    getField (softSkillsAnalyze validBody5 (LLMOutcome.ok proseReply) "2025-01-01").body
      "data" = some (fallbackSoftSkills (formattedResponses (ssResponses validBody5))
        "2025-01-01") ∧
    getField (fallbackSoftSkills (formattedResponses (ssResponses validBody5)) "2025-01-01")
      "overallSoftSkillsScore" = some (Json.num 70) ∧
    getField (fallbackSoftSkills (formattedResponses (ssResponses validBody5)) "2025-01-01")
      "source" = none :=
  C5_amended validBody5 "2025-01-01" proseReply rfl rfl

/-- C1 counterexample: a transport error on the LLM call makes the
soft-skills endpoint answer with an HTTP 500 error, so enrichment errors do
reach the caller. -/
theorem C1_counterexample :
    (softSkillsAnalyze validBody5 (LLMOutcome.err "network timeout") "2025-01-01").status
      = 500 := rfl

/-- A resume scenario whose Groq-only completion contains no parsable
JSON: an extraction failure on the resume endpoint. -/
def resumeErrAbsorbScenario : ResumeScenario :=
  ⟨true, "r.pdf", false, "", 10, false, AppPyOutcome.err,
   LLMOutcome.ok "unused", LLMOutcome.ok "no json at all"⟩

/-- A marks scenario whose structuring completion contains no parsable
JSON: an extraction failure on the marks endpoint. -/
def marksParseFailScenario : MarksScenario :=
  ⟨true, AppPyOutcome.ok true "analysis text" none none, LLMOutcome.ok "no json at all"⟩

/-- C1 amended: enrichment failures are fully absorbed only on the resume
and marks endpoints, which answer 200 on every run with a staged file,
transport and extraction parse failures included; the soft-skills
endpoint answers 500 on an LLM transport error, and the profile endpoint
answers 500 on a transport error, on an extraction parse failure, on a
parsed null — whose property access throws in the normalization literal —
and on a persistence failure after a successful parse. -/
theorem C1_amended :
    (∀ body now m, ssValid body = true →
       (softSkillsAnalyze body (LLMOutcome.err m) now).status = 500) ∧
    (∀ m saveOk, (profileAnalyze true (LLMOutcome.err m) saveOk).status = 500) ∧
    (∀ content saveOk, parseJson (profileExtractCandidate content.data) = none →
       (profileAnalyze true (LLMOutcome.ok content) saveOk).status = 500) ∧
    (∀ content saveOk, parseJson (profileExtractCandidate content.data) = some Json.null →
       (profileAnalyze true (LLMOutcome.ok content) saveOk).status = 500) ∧
    (∀ content parsed, parseJson (profileExtractCandidate content.data) = some parsed →
       (profileAnalyze true (LLMOutcome.ok content) false).status = 500) ∧
    (∀ sc : ResumeScenario, sc.filePresent = true → (resumeAnalyze sc).status = 200) ∧
    (∀ sc : MarksScenario, sc.filePresent = true → (marksAnalyze sc).status = 200) := by
  refine ⟨?_, ?_, ?_, ?_, ?_, ?_, ?_⟩
  · intro body now m h
    unfold softSkillsAnalyze
    rw [if_neg (by simp [h])]
  · intro m saveOk
    rfl
  · intro content saveOk hp
    unfold profileAnalyze
    simp [hp]
  · intro content saveOk hp
    unfold profileAnalyze
    simp [hp]
  · intro content parsed hp
    unfold profileAnalyze
    cases parsed <;> simp [hp]
  · intro sc h
    unfold resumeAnalyze
    rw [if_neg (by simp [h])]
    rcases hh : sc.healthOk with _ | _
    · rfl
    · rcases hap : sc.appPy with _ | ⟨s, a, fn, etl⟩
      · rfl
      · rcases s with _ | _
        · rfl
        · rcases hsg : sc.structGroq with m | content
          · rfl
          · rfl
  · intro sc h
    unfold marksAnalyze
    rw [if_neg (by simp [h])]
    rcases hap : sc.appPy with _ | ⟨s, a, fn, etl⟩
    · rfl
    · rcases s with _ | _
      · rfl
      · rcases hg : sc.groq with m | content
        · rfl
        · rfl

theorem C1_amended_witness :
    (softSkillsAnalyze validBody5 (LLMOutcome.err "boom") "2025-01-01").status = 500 ∧
    (profileAnalyze true (LLMOutcome.err "boom") true).status = 500 ∧
    (profileAnalyze true (LLMOutcome.ok proseReply) true).status = 500 ∧
    (profileAnalyze true (LLMOutcome.ok "null") true).status = 500 ∧
    (profileAnalyze true (LLMOutcome.ok "\x7b\x7d") false).status = 500 ∧
    (resumeAnalyze resumeErrAbsorbScenario).status = 200 ∧
    (marksAnalyze marksParseFailScenario).status = 200 :=
  ⟨C1_amended.1 validBody5 "2025-01-01" "boom" rfl,
   C1_amended.2.1 "boom" true,
   C1_amended.2.2.1 proseReply true rfl,
   C1_amended.2.2.2.1 "null" true rfl,
   C1_amended.2.2.2.2.1 "\x7b\x7d" (Json.obj []) rfl,
   C1_amended.2.2.2.2.2.1 resumeErrAbsorbScenario rfl,
   C1_amended.2.2.2.2.2.2 marksParseFailScenario rfl⟩

/-- A text with prose around a braced object, exercising the second
extraction strategy. -/
def bracedProse : List Char :=
  "prose ".data ++ lb :: "\"a\":1".data ++ rb :: " more".data

/-- C3 counterexample: the profile-analyze extraction site does not apply
the brace-slicing second strategy, so on prose around a braced object it
differs from the specification's three-strategy extraction. -/
theorem C3_counterexample : profileExtractCandidate bracedProse ≠ specExtract3 bracedProse := by
  decide

/-- C3 amended: the four duplicated extraction blocks of the soft-skills,
resume and marks endpoints compute exactly the specification's three
ordered strategies, while the profile-analyze site applies only the fenced
strategy with the full text as its fallback. -/
theorem C3_amended :
    (∀ t, extractCandidate t = specExtract3 t) ∧
    (∀ t, profileExtractCandidate t = specExtract13 t) :=
  ⟨extractCandidate_eq_spec3, fun _ => rfl⟩

/-- A string value whose text places a left brace before a right brace,
breaking the plain-serialization round trip. -/
def bracedStr : Json := Json.str (String.mk ['a', lb, 'b', rb, 'c'])

/-- C4 counterexample: extraction does not round-trip on the plain
serialization of a string containing braces: the brace slice cuts out an
unparsable fragment and extraction yields nothing. -/
theorem C4_counterexample :
    extractJson (stringifyVal bracedStr) = none ∧
    extractJson (stringifyVal bracedStr) ≠ some bracedStr :=
  ⟨rfl, by intro h; rw [show extractJson (stringifyVal bracedStr) = none from rfl] at h; exact
    Option.noConfusion h⟩

/-- A string value containing a lone backtick: only a triple backtick can
close the fence, so the lazy body passes over a single one. -/
def backtickStr : Json := Json.str (String.mk ['a', bt, 'b'])

/-- C4 amended: extraction round-trips with serialization for every
well-formed backtick-free value under the fence, and for every well-formed
backtick-free object in plain form; the plain round trip genuinely fails
on brace-containing non-object values (the counterexample), while a lone
backtick inside a string does not break the fenced round trip — the
backtick-free hypothesis of the general fenced statement is a sufficient
condition used by its proof, not a failure boundary. -/
theorem C4_amended :
    (∀ v, wfJsonB v = true → noBtB v = true →
       extractJson (fenceChars (stringifyVal v)) = some v) ∧
    (∀ fs, wfJsonB (Json.obj fs) = true → noBtB (Json.obj fs) = true →
       extractJson (stringifyVal (Json.obj fs)) = some (Json.obj fs)) ∧
    extractJson (fenceChars (stringifyVal backtickStr)) = some backtickStr :=
  ⟨extractJson_fence_rt, extractJson_plain_rt, rfl⟩

theorem C4_amended_witness :
    extractJson (fenceChars (stringifyVal (Json.obj [("a", Json.num 1)]))) =
      some (Json.obj [("a", Json.num 1)]) ∧
    extractJson (stringifyVal (Json.obj [("a", Json.num 1)])) =
      some (Json.obj [("a", Json.num 1)]) :=
  ⟨C4_amended.1 (Json.obj [("a", Json.num 1)]) rfl rfl,
   C4_amended.2.1 [("a", Json.num 1)] rfl rfl⟩

/-!
Claim C6: provenance reported after a failure of the structuring stage.
-/

/-- Resume scenario in which the app.py path succeeds but the structuring
output contains no parsable JSON. -/
def appPyParseFailScenario : ResumeScenario :=
  ⟨true, "resume.pdf", false, "", 1024, true,
   AppPyOutcome.ok true "Detailed resume analysis text." none none,
   LLMOutcome.ok "I could not extract structured data.",
   LLMOutcome.ok "unused"⟩

/-- Resume scenario on the Groq-only path whose Groq output contains no
parsable JSON. -/
def groqParseFailScenario : ResumeScenario :=
  ⟨true, "resume.pdf", false, "", 1024, false, AppPyOutcome.err,
   LLMOutcome.ok "unused", LLMOutcome.ok "No structured data in this reply."⟩

/-- Resume scenario on the Groq-only path whose Groq call itself fails. -/
def groqErrScenario : ResumeScenario :=
  ⟨true, "resume.pdf", false, "", 1024, false, AppPyOutcome.err,
   LLMOutcome.ok "unused", LLMOutcome.err "service unavailable"⟩

/-- C6 counterexample: on the app.py path of the resume endpoint a
structuring parse failure keeps the primary provenance tag app.py — not
basic-fallback and not error-fallback — because the catch substitutes a
default structure but leaves the source field of the primary result. -/
theorem C6_counterexample :
    parseJson (extractCandidate "I could not extract structured data.".data) = none ∧
    getField (resumeAnalyze appPyParseFailScenario).body "source" = some (Json.str "app.py") ∧
    Json.str "app.py" ≠ Json.str "basic-fallback" ∧
    Json.str "app.py" ≠ Json.str "error-fallback" :=
  ⟨rfl, rfl,
   by intro h; injection h with h; exact absurd h (by decide),
   by intro h; injection h with h; exact absurd h (by decide)⟩

/-- C6 amended: after a structuring failure the Groq-only path of the
resume endpoint does report a fallback tier — basic-fallback on a parse
failure and upload-only on a transport error — but the app.py path keeps
the primary tag app.py when its structuring output fails to parse. -/
theorem C6_amended :
    (∀ sc : ResumeScenario, sc.filePresent = true → sc.healthOk = true →
       ∀ a fn etl c, sc.appPy = AppPyOutcome.ok true a fn etl →
         sc.structGroq = LLMOutcome.ok c → c ≠ "" →
         parseJson (extractCandidate c.data) = none →
         getField (resumeAnalyze sc).body "source" = some (Json.str "app.py")) ∧
    (∀ sc : ResumeScenario, sc.filePresent = true → sc.healthOk = false →
       ∀ c, sc.fallbackGroq = LLMOutcome.ok c → c ≠ "" →
         parseJson (extractCandidate c.data) = none →
         getField (resumeAnalyze sc).body "source" = some (Json.str "basic-fallback")) ∧
    (∀ sc : ResumeScenario, sc.filePresent = true → sc.healthOk = false →
       ∀ m, sc.fallbackGroq = LLMOutcome.err m →
         getField (resumeAnalyze sc).body "source" = some (Json.str "upload-only")) := by
  refine ⟨?_, ?_, ?_⟩
  · intro sc hfp hh a fn etl c hap hsg hc hp
    unfold resumeAnalyze
    rw [if_neg (by simp [hfp])]
    simp only [hh, hap, hsg]
    simp [hc, hp, appPyAnalysisResult, appPyCatchStructure, getField, List.find?]
  · intro sc hfp hh c hfg hc hp
    unfold resumeAnalyze
    rw [if_neg (by simp [hfp])]
    simp only [hh]
    simp [resumeGroqOnly, hfg, hc, hp, basicFallbackResult, getField, List.find?]
  · intro sc hfp hh m hfg
    unfold resumeAnalyze
    rw [if_neg (by simp [hfp])]
    simp only [hh]
    simp [resumeGroqOnly, hfg, uploadOnlyResult, getField, List.find?]

theorem C6_amended_witness :
    getField (resumeAnalyze appPyParseFailScenario).body "source" = some (Json.str "app.py") ∧
    getField (resumeAnalyze groqParseFailScenario).body "source" =
      some (Json.str "basic-fallback") ∧
    getField (resumeAnalyze groqErrScenario).body "source" = some (Json.str "upload-only") :=
  ⟨C6_amended.1 appPyParseFailScenario rfl rfl "Detailed resume analysis text." none none
     "I could not extract structured data." rfl rfl (by decide) rfl,
   C6_amended.2.1 groqParseFailScenario rfl rfl "No structured data in this reply."
     rfl (by decide) rfl,
   C6_amended.2.2 groqErrScenario rfl rfl "service unavailable" rfl⟩

/-!
Claim C8: deletion of the staged upload on every exit path.
-/

/-- A photo scenario with the staged file present. -/
def photoDeleteScenario : PhotoScenario := ⟨true, true, "https://cdn.example/img.png"⟩

/-- A resume scenario with the staged file present, on the path where the
health probe fails and the Groq call errors. -/
def resumeDeleteScenario : ResumeScenario :=
  ⟨true, "r.pdf", false, "", 10, false, AppPyOutcome.err,
   LLMOutcome.ok "unused", LLMOutcome.err "down"⟩

/-- A marks scenario with the staged file present on the success path. -/
def marksDeleteScenario : MarksScenario :=
  ⟨true, AppPyOutcome.ok true "GPA analysis text" (some "m.pdf") (some 120),
   LLMOutcome.ok "no json here"⟩

/-- C8: every upload endpoint that staged a file deletes it on every exit
path: both cloud outcomes of the photo endpoint, the app.py and Groq-only
paths of the resume endpoint, and the success, parse-failure and error
paths of the marks endpoint. -/
theorem C8_staged_file_cleanup :
    (∀ sc : PhotoScenario, sc.filePresent = true → (uploadPhoto sc).fileDeleted = true) ∧
    (∀ sc : ResumeScenario, sc.filePresent = true → (resumeAnalyze sc).fileDeleted = true) ∧
    (∀ sc : MarksScenario, sc.filePresent = true → (marksAnalyze sc).fileDeleted = true) := by
  refine ⟨?_, ?_, ?_⟩
  · intro sc h
    unfold uploadPhoto
    rw [if_neg (by simp [h])]
    rcases hc : sc.cloudOk with _ | _
    · rfl
    · rfl
  · intro sc h
    unfold resumeAnalyze
    rw [if_neg (by simp [h])]
    rcases hh : sc.healthOk with _ | _
    · rfl
    · rcases hap : sc.appPy with _ | ⟨s, a, fn, etl⟩
      · rfl
      · rcases s with _ | _
        · rfl
        · rcases hsg : sc.structGroq with m | content
          · rfl
          · rfl
  · intro sc h
    unfold marksAnalyze
    rw [if_neg (by simp [h])]
    rcases hap : sc.appPy with _ | ⟨s, a, fn, etl⟩
    · rfl
    · rcases s with _ | _
      · rfl
      · rcases hg : sc.groq with m | content
        · rfl
        · rfl

theorem C8_staged_file_cleanup_witness :
    (uploadPhoto photoDeleteScenario).fileDeleted = true ∧
    (resumeAnalyze resumeDeleteScenario).fileDeleted = true ∧
    (marksAnalyze marksDeleteScenario).fileDeleted = true :=
  ⟨C8_staged_file_cleanup.1 photoDeleteScenario rfl,
   C8_staged_file_cleanup.2.1 resumeDeleteScenario rfl,
   C8_staged_file_cleanup.2.2 marksDeleteScenario rfl⟩

/-!
Claim C10: USN normalization to uppercase across create, update and the
USN-keyed lookups.
-/

/-- toNat of Char.ofNat on a scalar value below the surrogate range. -/
theorem toNat_ofNat_small {n : Nat} (h : n < 55296) : (Char.ofNat n).toNat = n := by
  unfold Char.ofNat
  rw [dif_pos (Or.inl h)]
  rfl

/-- Char.toUpper never produces a lowercase ASCII letter. -/
theorem toUpper_not_lower (c : Char) :
    (!(decide (97 ≤ (Char.toUpper c).toNat) && decide ((Char.toUpper c).toNat ≤ 122))) = true := by
  simp only [Char.toUpper]
  by_cases h : c.toNat ≥ 97 ∧ c.toNat ≤ 122
  · have he : (if c.toNat ≥ 97 ∧ c.toNat ≤ 122 then Char.ofNat (c.toNat - 32) else c) =
        Char.ofNat (c.toNat - 32) := if_pos h
    simp only [he, toNat_ofNat_small (show c.toNat - 32 < 55296 by omega)]
    have h1 : ¬(97 ≤ c.toNat - 32) := by omega
    simp [h1]
  · have he : (if c.toNat ≥ 97 ∧ c.toNat ≤ 122 then Char.ofNat (c.toNat - 32) else c) = c :=
      if_neg h
    simp only [he]
    by_cases h1 : 97 ≤ c.toNat
    · have h2 : ¬(c.toNat ≤ 122) := fun hh => h ⟨h1, hh⟩
      simp [h2]
    · simp [h1]

/-- jsUpper produces strings without lowercase ASCII letters. -/
theorem isUpperStr_jsUpper (s : String) : isUpperStr (jsUpper s) = true := by
  rw [isUpperStr]
  apply List.all_eq_true.mpr
  intro c hc
  have hc2 : c ∈ s.data.map Char.toUpper := hc
  obtain ⟨d, hd, rfl⟩ := List.mem_map.mp hc2
  exact toUpper_not_lower d

/-- The payload of an enumFrom member is a member of the base list. -/
theorem snd_mem_of_mem_enumFrom {α : Type} :
    ∀ (l : List α) (n : Nat) (p : Nat × α), p ∈ l.enumFrom n → p.2 ∈ l := by
  intro l
  induction l with
  | nil => intro n p hp; exact absurd hp (List.not_mem_nil p)
  | cons a l ih =>
    intro n p hp
    rw [List.enumFrom_cons] at hp
    rcases List.mem_cons.mp hp with h | h
    · rw [h]; exact List.mem_cons_self a l
    · exact List.mem_cons_of_mem a (ih (n + 1) p h)

/-- Invariant of the student store: every stored USN key is free of
lowercase ASCII letters. -/
def UsnInv (store : List (String × Json)) : Prop :=
  ∀ p ∈ store, isUpperStr p.1 = true

/-- C10: the create and update handlers store only uppercased USNs — they
preserve the uppercase invariant of the store — and the USN lookups
uppercase their argument, so two queries differing only in letter case
always resolve identically. -/
theorem C10_usn_uppercase :
    (∀ store usnRaw data store2, UsnInv store →
       createStudent store usnRaw data = Except.ok store2 → UsnInv store2) ∧
    (∀ store i u store2, UsnInv store →
       updateStudentUsn store i u = Except.ok store2 → UsnInv store2) ∧
    (∀ store q1 q2, jsUpper q1 = jsUpper q2 → findByUsn store q1 = findByUsn store q2) := by
  refine ⟨?_, ?_, ?_⟩
  · intro store usnRaw data store2 hinv hok
    rcases eq_or_ne usnRaw "" with hne | hne
    · subst hne
      simp [createStudent] at hok
    · rcases eq_or_ne (jsUpper usnRaw) "" with hju | hju
      · simp [createStudent, hne, hju] at hok
      · by_cases hdup : (store.find? (fun p => p.1 == jsUpper usnRaw)).isSome
        · simp [createStudent, hne, hju, hdup] at hok
        · simp [createStudent, hne, hju, hdup] at hok
          subst hok
          intro p hp
          rcases List.mem_cons.mp hp with h | h
          · rw [h]; exact isUpperStr_jsUpper usnRaw
          · exact hinv p h
  · intro store i u store2 hinv hok
    rcases u with _ | v
    · simp [updateStudentUsn] at hok
      subst hok
      exact hinv
    · rcases eq_or_ne v "" with hv | hv
      · simp [updateStudentUsn, hv] at hok
      · simp [updateStudentUsn, hv] at hok
        subst hok
        intro p hp
        obtain ⟨q, hq, hpq⟩ := List.mem_map.mp hp
        have hpq2 : (if q.1 = i then (jsUpper v, q.2.2) else q.2) = p := hpq
        rcases eq_or_ne q.1 i with hqi | hqi
        · rw [← hpq2, if_pos hqi]
          exact isUpperStr_jsUpper v
        · rw [← hpq2, if_neg hqi]
          exact hinv q.2 (snd_mem_of_mem_enumFrom store 0 q hq)
  · intro store q1 q2 h
    unfold findByUsn
    rw [h]

theorem C10_usn_uppercase_witness :
    UsnInv [("CS101", Json.null)] ∧
    findByUsn [("CS101", Json.null)] "cs101" = findByUsn [("CS101", Json.null)] "Cs101" :=
  ⟨C10_usn_uppercase.1 [] "cs101" Json.null [("CS101", Json.null)]
     (fun p hp => absurd hp (List.not_mem_nil p)) rfl,
   C10_usn_uppercase.2.2 [("CS101", Json.null)] "cs101" "Cs101" rfl⟩

end StudentAnalysis
